import Mathlib

/-!
# Verification of the natural-language date resolver and airport registry

Shallow embedding of `src/tools/date_parser.py` (class `DateParser`,
dataclass `ParsedDate`) and `src/tools/airport_registry.py` (dataclass
`Airport`, class `AirportRegistry`) from the `audio_router` repository.

Modelling conventions:
* Python `datetime` values are modelled by a proleptic Gregorian calendar
  date (year/month/day as `Nat`) plus a time-of-day in seconds.  Python's
  `MINYEAR = 1` lower bound is kept; the `MAXYEAR = 9999` upper bound is
  idealised away (years are unbounded above), which is the standard
  idealisation of library date arithmetic.
* `timedelta` day arithmetic is modelled by iterated calendar-day
  successor/predecessor, which agrees with Python's ordinal-based
  arithmetic on all valid dates.
* Regular-expression recognizers are modelled by recognizer functions
  over the character list / whitespace-separated word list of the
  (lower-cased, stripped) input.  Each recognizer mirrors the anchored
  pattern compiled in `DateParser._compile_patterns`.
* `rapidfuzz.fuzz.ratio` (an external library call) is abstracted as a
  similarity-function parameter with rational values.
-/

namespace AudioRouter

/-! ## Calendar core (model of Python `datetime.date`) -/

/-- Python `calendar.isleap` / `datetime` leap-year rule. -/
def isLeap (y : Nat) : Bool :=
  (y % 4 == 0 && y % 100 != 0) || y % 400 == 0

/-- Number of days in month `m` of year `y` (Gregorian). -/
def daysInMonth (y m : Nat) : Nat :=
  match m with
  | 1 => 31 | 2 => if isLeap y then 29 else 28 | 3 => 31
  | 4 => 30 | 5 => 31 | 6 => 30
  | 7 => 31 | 8 => 31 | 9 => 30
  | 10 => 31 | 11 => 30 | 12 => 31
  | _ => 0

/-- A calendar date, mirroring the date component of Python `datetime`. -/
structure Date where
  year : Nat
  month : Nat
  day : Nat
deriving DecidableEq, Repr

/-- Validity of a date: what `datetime(year, month, day)` accepts
(year upper bound idealised away). -/
def ValidDate (d : Date) : Prop :=
  1 ≤ d.year ∧ 1 ≤ d.month ∧ d.month ≤ 12 ∧ 1 ≤ d.day ∧ d.day ≤ daysInMonth d.year d.month

instance (d : Date) : Decidable (ValidDate d) := by
  unfold ValidDate; infer_instance

/-- Days in year `y` (365 or 366). -/
def daysInYear (y : Nat) : Nat := if isLeap y then 366 else 365

/-- Days strictly before January 1 of year `y` (counting from
0001-01-01), in the closed form used by Python's
`datetime._days_before_year`. -/
def daysBeforeYear (y : Nat) : Nat :=
  365 * (y - 1) + (y - 1) / 4 - (y - 1) / 100 + (y - 1) / 400

/-- Days of year `y` strictly before the first day of month `m`. -/
def daysBeforeMonth (y : Nat) : Nat → Nat
  | 0 => 0
  | 1 => 0
  | (m + 1) => daysBeforeMonth y m + daysInMonth y m

/-- Proleptic-Gregorian ordinal of a date; agrees with Python
`date.toordinal()` (0001-01-01 ↦ 1). -/
def toOrdinal (d : Date) : Nat :=
  daysBeforeYear d.year + daysBeforeMonth d.year d.month + d.day

/-- Day of week, Monday = 0; agrees with Python `date.weekday()`. -/
def weekdayOf (d : Date) : Nat := (toOrdinal d + 6) % 7

/-- Successor calendar day (model of `+ timedelta(days=1)`). -/
def nextDay (d : Date) : Date :=
  if d.day < daysInMonth d.year d.month then ⟨d.year, d.month, d.day + 1⟩
  else if d.month < 12 then ⟨d.year, d.month + 1, 1⟩
  else ⟨d.year + 1, 1, 1⟩

/-- Predecessor calendar day (model of `- timedelta(days=1)`); clamps at
0001-01-01, which is unreachable from any valid computation modelled here. -/
def prevDay (d : Date) : Date :=
  if 1 < d.day then ⟨d.year, d.month, d.day - 1⟩
  else if 1 < d.month then ⟨d.year, d.month - 1, daysInMonth d.year (d.month - 1)⟩
  else if 1 < d.year then ⟨d.year - 1, 12, 31⟩
  else ⟨1, 1, 1⟩

/-- `d + timedelta(days=n)` for `n ≥ 0`. -/
def addDays (d : Date) : Nat → Date
  | 0 => d
  | (n + 1) => nextDay (addDays d n)

/-- `d - timedelta(days=n)` for `n ≥ 0`. -/
def subDays (d : Date) : Nat → Date
  | 0 => d
  | (n + 1) => prevDay (subDays d n)

/-- Signed day offset (model of `+ timedelta(days=k)` for `k : Int`). -/
def addDaysInt (d : Date) (k : Int) : Date :=
  if 0 ≤ k then addDays d k.toNat else subDays d (-k).toNat

/-- A Python `datetime` instant: calendar date plus time of day in seconds. -/
structure DateTime where
  date : Date
  tod : Nat
deriving DecidableEq, Repr

/-- `datetime(y, m, d)` as a partial constructor: `some` exactly when the
components form a valid calendar date (otherwise Python raises `ValueError`). -/
def mkDatetime (y m d : Nat) : Option Date :=
  if 1 ≤ y ∧ 1 ≤ m ∧ m ≤ 12 ∧ 1 ≤ d ∧ d ≤ daysInMonth y m then some ⟨y, m, d⟩ else none

/-- Python comparison `datetime(y, m, d) < ref` (the left instant has
time-of-day 0): lexicographic on (year, month, day, time-of-day). -/
def dtLtRef (a : Date) (b : DateTime) : Bool :=
  (a.year < b.date.year) ||
  (a.year == b.date.year &&
    ((a.month < b.date.month) ||
      (a.month == b.date.month &&
        ((a.day < b.date.day) || (a.day == b.date.day && 0 < b.tod)))))

/-! ### Arithmetic lemmas for the calendar core -/

@[simp] theorem year_mk (y m d : Nat) : (Date.mk y m d).year = y := rfl

@[simp] theorem month_mk (y m d : Nat) : (Date.mk y m d).month = m := rfl

@[simp] theorem day_mk (y m d : Nat) : (Date.mk y m d).day = d := rfl

theorem validDate_mk {y m d : Nat} (h1 : 1 ≤ y) (h2 : 1 ≤ m) (h3 : m ≤ 12)
    (h4 : 1 ≤ d) (h5 : d ≤ daysInMonth y m) : ValidDate ⟨y, m, d⟩ :=
  ⟨h1, h2, h3, h4, h5⟩

theorem toOrdinal_mk (y m d : Nat) :
    toOrdinal ⟨y, m, d⟩ = daysBeforeYear y + daysBeforeMonth y m + d := rfl

theorem daysInMonth_pos {y m : Nat} (h1 : 1 ≤ m) (h2 : m ≤ 12) :
    1 ≤ daysInMonth y m := by
  interval_cases m <;> simp [daysInMonth] <;> split <;> omega

theorem daysInMonth_one (y : Nat) : daysInMonth y 1 = 31 := rfl

theorem daysInMonth_twelve (y : Nat) : daysInMonth y 12 = 31 := rfl

theorem validDate_nextDay {d : Date} (h : ValidDate d) : ValidDate (nextDay d) := by
  obtain ⟨h1, h2, h3, h4, h5⟩ := h
  unfold nextDay
  split
  · exact validDate_mk h1 h2 h3 (by omega) (by omega)
  · next hlt =>
    split
    · next hm =>
      exact validDate_mk h1 (by omega) (by omega) (by omega)
        (daysInMonth_pos (by omega) (by omega))
    · next hm =>
      exact validDate_mk (by omega) (by omega) (by omega) (by omega)
        (by rw [daysInMonth_one]; omega)

theorem daysBeforeMonth_succ (y : Nat) {m : Nat} (h : 1 ≤ m) :
    daysBeforeMonth y (m + 1) = daysBeforeMonth y m + daysInMonth y m := by
  match m, h with
  | (m' + 1), _ => rfl

set_option maxHeartbeats 2000000 in
theorem daysBeforeYear_succ {y : Nat} (h : 1 ≤ y) :
    daysBeforeYear (y + 1) = daysBeforeYear y + daysInYear y := by
  unfold daysBeforeYear daysInYear isLeap
  by_cases hl : ((y % 4 == 0 && y % 100 != 0) || y % 400 == 0) = true
  · rw [if_pos hl]
    simp only [Bool.or_eq_true, Bool.and_eq_true, beq_iff_eq, bne_iff_ne] at hl
    rcases hl with ⟨h4, h100⟩ | h400
    · omega
    · omega
  · rw [if_neg hl]
    simp only [Bool.or_eq_true, Bool.and_eq_true, beq_iff_eq, bne_iff_ne] at hl
    push_neg at hl
    omega

theorem daysBeforeMonth_all (y : Nat) :
    daysBeforeMonth y 12 + daysInMonth y 12 = daysInYear y := by
  unfold daysInYear
  by_cases h : isLeap y = true <;>
    simp only [daysBeforeMonth, daysInMonth, h] <;> norm_num

theorem toOrdinal_nextDay {d : Date} (h : ValidDate d) :
    toOrdinal (nextDay d) = toOrdinal d + 1 := by
  obtain ⟨h1, h2, h3, h4, h5⟩ := h
  unfold nextDay
  split
  · rw [toOrdinal_mk]; unfold toOrdinal; omega
  · next hlt =>
    split
    · next hm =>
      rw [toOrdinal_mk, daysBeforeMonth_succ d.year h2]
      unfold toOrdinal
      omega
    · next hm =>
      have hm12 : d.month = 12 := by omega
      have hday : d.day = 31 := by
        rw [hm12, daysInMonth_twelve] at h5 hlt
        omega
      rw [toOrdinal_mk, daysBeforeYear_succ h1]
      have h12 := daysBeforeMonth_all d.year
      unfold toOrdinal
      rw [hm12, hday]
      rw [daysInMonth_twelve] at h12
      have hone : daysBeforeMonth (d.year + 1) 1 = 0 := rfl
      rw [hone]
      unfold daysInYear at h12 ⊢
      by_cases hl : isLeap d.year = true
      · rw [if_pos hl] at h12 ⊢; omega
      · rw [if_neg hl] at h12 ⊢; omega

theorem toOrdinal_pos {d : Date} (h : ValidDate d) : 1 ≤ toOrdinal d := by
  obtain ⟨h1, h2, h3, h4, h5⟩ := h
  unfold toOrdinal
  omega

theorem validDate_addDays {d : Date} (h : ValidDate d) (n : Nat) :
    ValidDate (addDays d n) := by
  induction n with
  | zero => exact h
  | succ n ih => exact validDate_nextDay ih

theorem toOrdinal_addDays {d : Date} (h : ValidDate d) (n : Nat) :
    toOrdinal (addDays d n) = toOrdinal d + n := by
  induction n with
  | zero => rfl
  | succ n ih =>
    have := toOrdinal_nextDay (validDate_addDays h n)
    simp only [addDays]
    omega

theorem weekdayOf_addDays {d : Date} (h : ValidDate d) (n : Nat) :
    weekdayOf (addDays d n) = (weekdayOf d + n) % 7 := by
  unfold weekdayOf
  rw [toOrdinal_addDays h n]
  omega

theorem validDate_prevDay {d : Date} (h : ValidDate d) : ValidDate (prevDay d) := by
  obtain ⟨h1, h2, h3, h4, h5⟩ := h
  unfold prevDay
  split
  · exact validDate_mk h1 h2 h3 (by omega) (by omega)
  · split
    · next hm =>
      exact validDate_mk h1 (by omega) (by omega)
        (daysInMonth_pos (by omega) (by omega)) (le_refl _)
    · split
      · next hy =>
        exact validDate_mk (by omega) (by omega) (by omega) (by omega)
          (by rw [daysInMonth_twelve])
      · exact validDate_mk (by omega) (by omega) (by omega) (by omega)
          (by rw [daysInMonth_one]; omega)

theorem prevDay_firstOfMonth {y m : Nat} (h1 : 1 ≤ m) :
    prevDay ⟨y, m + 1, 1⟩ = ⟨y, m, daysInMonth y m⟩ := by
  unfold prevDay
  rw [if_neg (by simp), if_pos (by simp only [month_mk]; omega)]
  rfl

theorem prevDay_firstOfYear (y : Nat) (h1 : 1 ≤ y) :
    prevDay ⟨y + 1, 1, 1⟩ = ⟨y, 12, 31⟩ := by
  unfold prevDay
  rw [if_neg (by simp), if_neg (by simp), if_pos (by simp only [year_mk]; omega)]
  rfl

theorem nextDay_prevDay {d : Date} (h : ValidDate d) (h2 : 2 ≤ toOrdinal d) :
    nextDay (prevDay d) = d := by
  obtain ⟨dy, dm, dd⟩ := d
  obtain ⟨g1, g2, g3, g4, g5⟩ := h
  simp only [year_mk, month_mk, day_mk] at g1 g2 g3 g4 g5
  unfold prevDay nextDay
  simp only [year_mk, month_mk, day_mk]
  split
  · next hds =>
    rw [if_pos (by simp only [year_mk, month_mk, day_mk]; omega)]
    have hdd : dd - 1 + 1 = dd := by omega
    rw [hdd]
  · next hds =>
    have hd1 : dd = 1 := by omega
    split
    · next hm =>
      rw [if_neg (by simp only [year_mk, month_mk, day_mk]; omega),
        if_pos (by simp only [year_mk, month_mk, day_mk]; omega)]
      have hdm : dm - 1 + 1 = dm := by omega
      rw [hdm, hd1]
    · split
      · next hy =>
        rw [if_neg (by simp only [year_mk, month_mk, day_mk, daysInMonth_twelve]; omega),
          if_neg (by simp only [year_mk, month_mk, day_mk]; omega)]
        have hdy : dy - 1 + 1 = dy := by omega
        have hm1 : dm = 1 := by omega
        rw [hdy, hm1, hd1]
      · next hy =>
        -- d = ⟨1, 1, 1⟩, excluded by `2 ≤ toOrdinal d`
        exfalso
        have hy1 : dy = 1 := by omega
        have hm1 : dm = 1 := by omega
        have hd1 : dd = 1 := by omega
        have hord : toOrdinal ⟨dy, dm, dd⟩ = 1 := by
          rw [toOrdinal_mk, hy1, hm1, hd1]
          simp [daysBeforeYear, daysBeforeMonth]
        omega

theorem toOrdinal_prevDay {d : Date} (h : ValidDate d) (h2 : 2 ≤ toOrdinal d) :
    toOrdinal (prevDay d) = toOrdinal d - 1 := by
  have hv := validDate_prevDay h
  have := toOrdinal_nextDay hv
  rw [nextDay_prevDay h h2] at this
  omega

theorem validDate_subDays {d : Date} (h : ValidDate d) (n : Nat) :
    ValidDate (subDays d n) := by
  induction n with
  | zero => exact h
  | succ n ih => exact validDate_prevDay ih

theorem toOrdinal_subDays {d : Date} (h : ValidDate d) (n : Nat)
    (hn : n + 1 ≤ toOrdinal d) : toOrdinal (subDays d n) = toOrdinal d - n := by
  induction n with
  | zero => rfl
  | succ n ih =>
    have hrec := ih (by omega)
    have := toOrdinal_prevDay (validDate_subDays h n) (by omega)
    simp only [subDays]
    omega

/-! ## String utilities (models of `str.lower`, `str.strip`, `\s+` splitting) -/

/-- Python `str.lower` on the character ranges used by this code base
(ASCII letters and the Cyrillic letters appearing in the grammars). -/
def pyLowerChar (c : Char) : Char :=
  if 'A' ≤ c ∧ c ≤ 'Z' then Char.ofNat (c.toNat + 32)
  else if 'А' ≤ c ∧ c ≤ 'Я' then Char.ofNat (c.toNat + 32)
  else if c = 'Ё' then 'ё'
  else c

def pyLower (s : String) : String := ⟨s.data.map pyLowerChar⟩

/-- Python `\s` / `str.strip` whitespace class (ASCII part). -/
def pyIsSpace (c : Char) : Bool :=
  c = ' ' || c = '\t' || c = '\n' || c = '\r' || c = '\x0b' || c = '\x0c'

def pyStrip (s : String) : String :=
  ⟨((s.data.dropWhile pyIsSpace).reverse.dropWhile pyIsSpace).reverse⟩

/-- The `text.lower().strip()` normalization applied by `DateParser.parse`. -/
def normText (s : String) : String := pyStrip (pyLower s)

/-- Split a character list into maximal whitespace-free words
(the effect of `\s+` separators in the anchored patterns). -/
def wordsGo (acc : List Char) : List Char → List (List Char)
  | [] => if acc.isEmpty then [] else [acc.reverse]
  | c :: cs =>
    if pyIsSpace c then
      if acc.isEmpty then wordsGo [] cs else acc.reverse :: wordsGo [] cs
    else wordsGo (c :: acc) cs

def wordsOf (s : String) : List String := (wordsGo [] s.data).map (fun w => ⟨w⟩)

/-- First-match association lookup (model of the pattern-alternation →
dictionary pipeline; all alternations here are disjoint full words). -/
def lookupStr {α : Type} : List (String × α) → String → Option α
  | [], _ => none
  | (k, v) :: rest, s => if s = k then some v else lookupStr rest s

def digitsVal (l : List Char) : Nat := l.foldl (fun n c => n * 10 + (c.toNat - 48)) 0

def isDigitStr (s : String) : Bool := !s.data.isEmpty && s.data.all Char.isDigit

def takeDigits (l : List Char) : List Char × List Char :=
  (l.takeWhile Char.isDigit, l.dropWhile Char.isDigit)

/-! ## Recognizer tables (the dictionaries in `DateParser.__init__` and the
alternations in `DateParser._compile_patterns`) -/

/-- `self.simple_relative`: literal → fixed day offset. -/
def simpleRelTable : List (String × Int) :=
  [("сегодня", 0), ("завтра", 1), ("послезавтра", 2), ("вчера", -1), ("позавчера", -2),
   ("today", 0), ("tomorrow", 1), ("yesterday", -1)]

/-- `self.weekdays`: weekday name → weekday number (Monday = 0). -/
def weekdaysTable : List (String × Nat) :=
  [("понедельник", 0), ("пн", 0), ("вторник", 1), ("вт", 1),
   ("среда", 2), ("среду", 2), ("ср", 2), ("четверг", 3), ("чт", 3),
   ("пятница", 4), ("пятницу", 4), ("пт", 4), ("суббота", 5), ("субботу", 5), ("сб", 5),
   ("воскресенье", 6), ("вс", 6),
   ("monday", 0), ("mon", 0), ("tuesday", 1), ("tue", 1), ("tues", 1),
   ("wednesday", 2), ("wed", 2), ("thursday", 3), ("thu", 3), ("thur", 3), ("thurs", 3),
   ("friday", 4), ("fri", 4), ("saturday", 5), ("sat", 5), ("sunday", 6), ("sun", 6)]

/-- Russian month names (genitive), as in `date_text_ru_pattern`. -/
def ruMonths : List (String × Nat) :=
  [("января", 1), ("февраля", 2), ("марта", 3), ("апреля", 4), ("мая", 5), ("июня", 6),
   ("июля", 7), ("августа", 8), ("сентября", 9), ("октября", 10), ("ноября", 11), ("декабря", 12)]

/-- English month names and abbreviations, as in `date_text_en_pattern`. -/
def enMonths : List (String × Nat) :=
  [("january", 1), ("february", 2), ("march", 3), ("april", 4), ("may", 5), ("june", 6),
   ("july", 7), ("august", 8), ("september", 9), ("october", 10), ("november", 11),
   ("december", 12), ("jan", 1), ("feb", 2), ("mar", 3), ("apr", 4), ("jun", 6), ("jul", 7),
   ("aug", 8), ("sep", 9), ("sept", 9), ("oct", 10), ("nov", 11), ("dec", 12)]

/-! ## Word-level recognizers (models of the compiled anchored regexes) -/

/-- Group 1 alternatives of `weekday_pattern`. -/
def nextQualifiers : List String := ["следующий", "следующую", "next", "on"]

/-- `is_next = prefix and ("следующ" in prefix or "next" in prefix)`. -/
def isNextQualifier (p : String) : Bool :=
  p = "следующий" || p = "следующую" || p = "next"

/-- `weekday_pattern`: optional next/on qualifier, optional "в", weekday name. -/
def weekdayMatch (ws : List String) : Option (Bool × Nat) :=
  match ws with
  | [n] => (lookupStr weekdaysTable n).map (fun w => (false, w))
  | [p, n] =>
    if p ∈ nextQualifiers then (lookupStr weekdaysTable n).map (fun w => (isNextQualifier p, w))
    else if p = "в" then (lookupStr weekdaysTable n).map (fun w => (false, w))
    else none
  | [p, v, n] =>
    if p ∈ nextQualifiers ∧ v = "в" then
      (lookupStr weekdaysTable n).map (fun w => (isNextQualifier p, w))
    else none
  | _ => none

/-- `week_period_pattern`: returns the captured period qualifier. -/
def weekPeriodMatch (ws : List String) : Option String :=
  match ws with
  | [p, w] =>
    if (p = "эта" ∨ p = "эту" ∨ p = "следующая" ∨ p = "следующую" ∨ p = "this" ∨ p = "next") ∧
        (w = "неделя" ∨ w = "неделю" ∨ w = "неделе" ∨ w = "week") then some p else none
  | _ => none

/-- `weeks_offset_pattern`: `через N недель` / `in N weeks`. -/
def weeksOffsetMatch (ws : List String) : Option Nat :=
  match ws with
  | [p, n, w] =>
    if (p = "через" ∨ p = "in") ∧ isDigitStr n ∧
        (w = "недели" ∨ w = "недель" ∨ w = "неделю" ∨ w = "неделя" ∨ w = "week" ∨ w = "weeks")
    then some (digitsVal n.data) else none
  | _ => none

/-- `week_offset_single_pattern`: `через неделю` / `in (a) week`. -/
def weekSingleMatch (ws : List String) : Bool :=
  match ws with
  | [p, w] =>
    decide ((p = "через" ∨ p = "in") ∧ (w = "неделю" ∨ w = "неделу" ∨ w = "week"))
  | [p, a, w] =>
    decide ((p = "через" ∨ p = "in") ∧ a = "a" ∧ (w = "неделю" ∨ w = "неделу" ∨ w = "week"))
  | _ => false

/-- `month_period_pattern`: returns the captured period qualifier. -/
def monthPeriodMatch (ws : List String) : Option String :=
  match ws with
  | [p, w] =>
    if (p = "этот" ∨ p = "следующий" ∨ p = "this" ∨ p = "next") ∧ (w = "месяц" ∨ w = "month")
    then some p else none
  | _ => none

/-- `days_offset_pattern`: `через N дней` / `in N days`. -/
def daysOffsetMatch (ws : List String) : Option Nat :=
  match ws with
  | [p, n, w] =>
    if (p = "через" ∨ p = "in") ∧ isDigitStr n ∧
        (w = "день" ∨ w = "дня" ∨ w = "дней" ∨ w = "day" ∨ w = "days")
    then some (digitsVal n.data) else none
  | _ => none

/-- `months_offset_pattern`: `через N месяцев` / `in N months`
(the suffix class `месяц[аев]?` admits exactly месяц/месяца/месяце/месяцв). -/
def monthsOffsetMatch (ws : List String) : Option Nat :=
  match ws with
  | [p, n, w] =>
    if (p = "через" ∨ p = "in") ∧ isDigitStr n ∧
        (w = "месяц" ∨ w = "месяца" ∨ w = "месяце" ∨ w = "месяцв" ∨ w = "month" ∨ w = "months")
    then some (digitsVal n.data) else none
  | _ => none

/-- `month_offset_single_pattern`: `через месяц` / `in (a) month`. -/
def monthSingleMatch (ws : List String) : Bool :=
  match ws with
  | [p, w] => decide ((p = "через" ∨ p = "in") ∧ (w = "месяц" ∨ w = "month"))
  | [p, a, w] => decide ((p = "через" ∨ p = "in") ∧ a = "a" ∧ (w = "месяц" ∨ w = "month"))
  | _ => false

/-- Common shape of the three numeric date patterns: three digit groups
with prescribed length ranges separated by a fixed separator character,
anchored on both sides. -/
def sepNum3 (sep : Char) (lo1 hi1 lo2 hi2 lo3 hi3 : Nat) (l : List Char) :
    Option (Nat × Nat × Nat) :=
  let p1 := takeDigits l
  if lo1 ≤ p1.1.length ∧ p1.1.length ≤ hi1 then
    match p1.2 with
    | c :: r2 =>
      if c = sep then
        let p2 := takeDigits r2
        if lo2 ≤ p2.1.length ∧ p2.1.length ≤ hi2 then
          match p2.2 with
          | c2 :: r4 =>
            if c2 = sep then
              let p3 := takeDigits r4
              if lo3 ≤ p3.1.length ∧ p3.1.length ≤ hi3 ∧ p3.2 = [] then
                some (digitsVal p1.1, digitsVal p2.1, digitsVal p3.1)
              else none
            else none
          | [] => none
        else none
      else none
    | [] => none
  else none

/-- `date_iso_pattern` `^(\d{4})-(\d{2})-(\d{2})$` → (year, month, day). -/
def isoMatch (l : List Char) : Option (Nat × Nat × Nat) :=
  sepNum3 '-' 4 4 2 2 2 2 l

/-- `date_dot_pattern` `^(\d{1,2})\.(\d{1,2})\.(\d{2,4})$` → (day, month, year). -/
def dotMatch (l : List Char) : Option (Nat × Nat × Nat) :=
  sepNum3 '.' 1 2 1 2 2 4 l

/-- `date_slash_pattern` `^(\d{1,2})/(\d{1,2})/(\d{2,4})$` → (month, day, year). -/
def slashMatch (l : List Char) : Option (Nat × Nat × Nat) :=
  sepNum3 '/' 1 2 1 2 2 4 l

/-- `date_text_ru_pattern`: `D месяц [ГГГГ]` → (day, month, year?). -/
def ruTextMatch (ws : List String) : Option (Nat × Nat × Option Nat) :=
  match ws with
  | [d, m] =>
    match lookupStr ruMonths m with
    | some mn =>
      if isDigitStr d ∧ d.length ≤ 2 then some (digitsVal d.data, mn, none) else none
    | none => none
  | [d, m, y] =>
    match lookupStr ruMonths m with
    | some mn =>
      if isDigitStr d ∧ d.length ≤ 2 ∧ isDigitStr y ∧ y.length = 4 then
        some (digitsVal d.data, mn, some (digitsVal y.data))
      else none
    | none => none
  | _ => none

/-- The day token of `date_text_en_pattern`: digits, optional ordinal
suffix `st|nd|rd|th`, optional trailing comma (only when a year follows). -/
def enDayTok (l : List Char) (hasYear : Bool) : Option Nat :=
  let p := takeDigits l
  if 1 ≤ p.1.length ∧ p.1.length ≤ 2 then
    let r2 :=
      match p.2 with
      | 's' :: 't' :: rest => rest
      | 'n' :: 'd' :: rest => rest
      | 'r' :: 'd' :: rest => rest
      | 't' :: 'h' :: rest => rest
      | r => r
    if hasYear then (if r2 = [] ∨ r2 = [','] then some (digitsVal p.1) else none)
    else (if r2 = [] then some (digitsVal p.1) else none)
  else none

/-- `date_text_en_pattern`: `month D[suffix][,] [YYYY]` → (day, month, year?). -/
def enTextMatch (ws : List String) : Option (Nat × Nat × Option Nat) :=
  match ws with
  | [m, d] =>
    match lookupStr enMonths m with
    | some mn => (enDayTok d.data false).map (fun dn => (dn, mn, none))
    | none => none
  | [m, d, y] =>
    match lookupStr enMonths m with
    | some mn =>
      if isDigitStr y ∧ y.length = 4 then
        (enDayTok d.data true).map (fun dn => (dn, mn, some (digitsVal y.data)))
      else none
    | none => none
  | _ => none

/-! ## The parse outcome type (`ParsedDate` dataclass) -/

/-- Result of parsing (fields of the `ParsedDate` dataclass, with dates as
calendar values in place of their `YYYY-MM-DD` renderings). -/
structure ParsedDate where
  date : Option Date := none
  date_from : Option Date := none
  date_to : Option Date := none
  is_period : Bool := false
  original_text : String := ""
deriving DecidableEq, Repr

/-- `ParsedDate.__post_init__` validation: constructing a `ParsedDate`
either succeeds or raises `ValueError`. -/
def mkParsedDate (date date_from date_to : Option Date) (is_period : Bool)
    (original_text : String) : Except String ParsedDate :=
  if is_period then
    if date_from.isSome ∧ date_to.isSome then
      .ok ⟨date, date_from, date_to, is_period, original_text⟩
    else .error "Period must have date_from and date_to"
  else
    if date.isSome then .ok ⟨date, date_from, date_to, is_period, original_text⟩
    else .error "Non-period must have date"

/-- The single failure raised by `DateParser.parse`
(`ValueError` carrying the lower-cased stripped text). -/
inductive ParseError where
  | unrecognized (text : String)
deriving DecidableEq, Repr

/-! ## The parser cascade (`DateParser._parse_*` and `DateParser.parse`) -/

/-- `_parse_simple_relative`. -/
def parseSimpleRelative (ref : DateTime) (t : String) : Option ParsedDate :=
  (lookupStr simpleRelTable t).map
    (fun off => { date := some (addDaysInt ref.date off), is_period := false })

/-- The `days_ahead` computation in `_parse_weekday`. -/
def aheadDays (isNext : Bool) (target current : Nat) : Nat :=
  let d0 := (target + 7 - current) % 7
  if isNext then (if d0 = 0 then 7 else d0 + 7) else (if d0 = 0 then 7 else d0)

/-- `_parse_weekday`. -/
def parseWeekday (ref : DateTime) (ws : List String) : Option ParsedDate :=
  (weekdayMatch ws).map (fun bw =>
    { date := some (addDays ref.date (aheadDays bw.1 bw.2 (weekdayOf ref.date))),
      is_period := false })

/-- `_parse_week_period`. -/
def parseWeekPeriod (ref : DateTime) (ws : List String) : Option ParsedDate :=
  match weekPeriodMatch ws with
  | some p =>
    let wd := weekdayOf ref.date
    let currentMonday := addDaysInt ref.date (-(wd : Int))
    if p = "эта" ∨ p = "эту" ∨ p = "this" then
      some { date_from := some currentMonday, date_to := some (addDays currentMonday 6),
             is_period := true }
    else
      let wkStart := addDays currentMonday 7
      some { date_from := some wkStart, date_to := some (addDays wkStart 6), is_period := true }
  | none =>
  match weeksOffsetMatch ws with
  | some n =>
    let wd := weekdayOf ref.date
    let wkStart := addDaysInt ref.date ((n : Int) * 7 - wd)
    some { date_from := some wkStart, date_to := some (addDays wkStart 6), is_period := true }
  | none =>
  if weekSingleMatch ws then
    let wd := weekdayOf ref.date
    let wkStart := addDaysInt ref.date (7 - (wd : Int))
    some { date_from := some wkStart, date_to := some (addDays wkStart 6), is_period := true }
  else none

/-- `_parse_month_period`. -/
def parseMonthPeriod (ref : DateTime) (ws : List String) : Option ParsedDate :=
  match monthPeriodMatch ws with
  | some p =>
    let ym : Nat × Nat :=
      if p = "этот" ∨ p = "this" then (ref.date.year, ref.date.month)
      else if ref.date.month = 12 then (ref.date.year + 1, 1)
      else (ref.date.year, ref.date.month + 1)
    let nextMonth : Date := if ym.2 = 12 then ⟨ym.1 + 1, 1, 1⟩ else ⟨ym.1, ym.2 + 1, 1⟩
    some { date_from := some ⟨ym.1, ym.2, 1⟩, date_to := some (prevDay nextMonth),
           is_period := true }
  | none => none

/-- The `while new_month > 12` normalization loop in `_parse_offset`. -/
def normMonth (y m : Nat) : Nat × Nat :=
  if 12 < m then normMonth (y + 1) (m - 12) else (y, m)
termination_by m
decreasing_by omega

/-- The `try: datetime(...) except ValueError: last day of month` clamp
in `_parse_offset`. -/
def clampDay (y m day : Nat) : Date :=
  match mkDatetime y m day with
  | some dt => dt
  | none => prevDay (if m = 12 then ⟨y + 1, 1, 1⟩ else ⟨y, m + 1, 1⟩)

/-- `_parse_offset`. -/
def parseOffset (ref : DateTime) (ws : List String) : Option ParsedDate :=
  match daysOffsetMatch ws with
  | some n => some { date := some (addDays ref.date n), is_period := false }
  | none =>
  match monthsOffsetMatch ws with
  | some n =>
    let ym := normMonth ref.date.year (ref.date.month + n)
    some { date := some (clampDay ym.1 ym.2 ref.date.day), is_period := false }
  | none =>
  if monthSingleMatch ws then
    let ym : Nat × Nat :=
      if 12 < ref.date.month + 1 then (ref.date.year + 1, 1)
      else (ref.date.year, ref.date.month + 1)
    some { date := some (clampDay ym.1 ym.2 ref.date.day), is_period := false }
  else none

/-- Year inference for textual dates without an explicit year: use the
reference year, switching to the next year when `datetime(ref_year, m, d)`
compares strictly below the reference instant (`date < self.reference_date`). -/
def yearlessPick (ref : DateTime) (m d : Nat) : Nat :=
  match mkDatetime ref.date.year m d with
  | some dt => if dtLtRef dt ref then ref.date.year + 1 else ref.date.year
  | none => ref.date.year

/-- `_parse_absolute`. -/
def parseAbsolute (ref : DateTime) (t : String) (ws : List String) : Option ParsedDate :=
  match isoMatch t.data with
  | some (y, m, d) => (mkDatetime y m d).map (fun dt => { date := some dt, is_period := false })
  | none =>
  match dotMatch t.data with
  | some (d, m, y) =>
    let yy := if y < 100 then y + 2000 else y
    (mkDatetime yy m d).map (fun dt => { date := some dt, is_period := false })
  | none =>
  match slashMatch t.data with
  | some (m, d, y) =>
    let yy := if y < 100 then y + 2000 else y
    (mkDatetime yy m d).map (fun dt => { date := some dt, is_period := false })
  | none =>
  match ruTextMatch ws with
  | some (d, m, yOpt) =>
    let y := match yOpt with | some y => y | none => yearlessPick ref m d
    (mkDatetime y m d).map (fun dt => { date := some dt, is_period := false })
  | none =>
  match enTextMatch ws with
  | some (d, m, yOpt) =>
    let y := match yOpt with | some y => y | none => yearlessPick ref m d
    (mkDatetime y m d).map (fun dt => { date := some dt, is_period := false })
  | none => none

/-- `DateParser.parse`: normalize, try the recognizers in cascade order,
fill in `original_text`, raise on no match. -/
def dateParse (ref : DateTime) (text : String) : Except ParseError ParsedDate :=
  let t := normText text
  let ws := wordsOf t
  match parseSimpleRelative ref t with
  | some r => .ok { r with original_text := text }
  | none =>
  match parseWeekday ref ws with
  | some r => .ok { r with original_text := text }
  | none =>
  match parseWeekPeriod ref ws with
  | some r => .ok { r with original_text := text }
  | none =>
  match parseMonthPeriod ref ws with
  | some r => .ok { r with original_text := text }
  | none =>
  match parseOffset ref ws with
  | some r => .ok { r with original_text := text }
  | none =>
  match parseAbsolute ref t ws with
  | some r => .ok { r with original_text := text }
  | none => .error (.unrecognized t)

/-! ## Airport registry (`src/tools/airport_registry.py`) -/

/-- The `Airport` dataclass.  Latitude/longitude are carried as rationals;
their values play no arithmetic role in the registry logic. -/
structure Airport where
  code : String
  title : String
  settlement : String
  region : String
  country : String
  latitude : ℚ
  longitude : ℚ
  aliases : List String
deriving DecidableEq, Repr

namespace Airport

/-- `Airport.matches` (renamed: `matches` is a Lean keyword): exact
(case-insensitive) match on settlement, title, or any alias. -/
def matchesQuery (a : Airport) (query : String) : Bool :=
  let ql := normText query
  ql = pyLower a.settlement || ql = pyLower a.title ||
    a.aliases.any (fun al => ql = pyLower al)

/-- Python `max` over a nonempty list. -/
def listMax : List ℚ → ℚ
  | [] => 0
  | x :: xs => xs.foldl max x

/-- `Airport.similarity_score`.  `rapidfuzz.fuzz.ratio(...) / 100.0` is
abstracted as the `ratio` parameter. -/
def similarity_score (ratio : String → String → ℚ) (a : Airport) (query : String) : ℚ :=
  let ql := normText query
  if a.matchesQuery query then 1
  else
    listMax (ratio ql (pyLower a.settlement) :: ratio ql (pyLower a.title) ::
      a.aliases.map (fun al => ratio ql (pyLower al)))

end Airport

/-- Registry state: the record list and the `_loaded` flag.  The
`_by_code` / `_by_settlement` / `_by_title` dictionaries built by
`_build_indexes` are pure caches over `airports`; they are modelled
extensionally below. -/
structure AirportRegistry where
  airports : List Airport
  loaded : Bool
deriving DecidableEq, Repr

namespace AirportRegistry

/-- `_by_settlement[ql]`: all airports with that settlement, in catalog
order (the dictionary is built by appending while iterating `airports`). -/
def bySettlement (r : AirportRegistry) (ql : String) : List Airport :=
  r.airports.filter (fun a => pyLower a.settlement = ql)

/-- `_by_title[ql]`: the first airport with that title (the build loop
only inserts a title key when it is not already present). -/
def byTitle (r : AirportRegistry) (ql : String) : Option Airport :=
  (r.airports.filter (fun a => pyLower a.title = ql)).head?

/-- Stable insertion of a scored record into a descending-by-score list
(the effect of Python's stable `list.sort(key=score, reverse=True)`). -/
def insertDesc (x : Airport × ℚ) : List (Airport × ℚ) → List (Airport × ℚ)
  | [] => [x]
  | y :: ys => if y.2 ≤ x.2 then x :: y :: ys else y :: insertDesc x ys

/-- Stable descending sort by score; extensionally equal to Python's
stable `sort(..., reverse=True)` because the stable descending
permutation is unique. -/
def sortDesc : List (Airport × ℚ) → List (Airport × ℚ)
  | [] => []
  | x :: xs => insertDesc x (sortDesc xs)

/-- `AirportRegistry.find_airports`. -/
def find_airports (ratio : String → String → ℚ) (r : AirportRegistry)
    (query : String) (limit : Nat) : List Airport :=
  if r.loaded = true then
    let ql := normText query
    let settlementHits := r.bySettlement ql
    if settlementHits ≠ [] then settlementHits.take limit
    else
      match r.byTitle ql with
      | some a => [a]
      | none =>
        let ms := (r.airports.filter (fun a => a.matchesQuery query)).map (fun a => (a, (1 : ℚ)))
        if ms ≠ [] then ((sortDesc ms).take limit).map Prod.fst
        else
          let scored := r.airports.map (fun a => (a, a.similarity_score ratio query))
          let survivors := scored.filter (fun p => (6/10 : ℚ) ≤ p.2)
          ((sortDesc survivors).take limit).map Prod.fst
  else []

/-- `AirportRegistry.find_airport`: first hit of `find_airports(query, limit=1)`. -/
def find_airport (ratio : String → String → ℚ) (r : AirportRegistry)
    (query : String) : Option Airport :=
  (r.find_airports ratio query 1).head?

end AirportRegistry

/-- Parsed content of a cache snapshot file (`version`, `updated_at`,
`airports`); timestamps are modelled as seconds on an absolute scale.
An absent `updated_at` field is `none`. -/
structure CacheData where
  version : String
  updated_at : Option Int
  airports : List Airport
deriving DecidableEq, Repr

/-- `AirportRegistry.save_to_cache`: writes version "1.0", the current
instant, and the full record list. -/
def saveToCache (r : AirportRegistry) (now : Int) : CacheData :=
  ⟨"1.0", some now, r.airports⟩

/-- `AirportRegistry.load_from_cache`.  `cache = none` models a missing
file or a JSON decoding error (both return `False`).  The age in whole
days is `timedelta.days`, i.e. floor division of the second difference. -/
def loadFromCache (r : AirportRegistry) (cache : Option CacheData) (now ttl : Int) :
    Bool × AirportRegistry :=
  match cache with
  | none => (false, r)
  | some data =>
    if data.version ≠ "1.0" then (false, r)
    else
      match data.updated_at with
      | some u =>
        if ttl < (now - u).fdiv 86400 then (false, r)
        else (true, { r with airports := data.airports, loaded := true })
      | none => (true, { r with airports := data.airports, loaded := true })

/-- `AirportRegistry.is_cache_valid`: requires a parseable snapshot with
an `updated_at` no more than `ttl` whole days old (no version check). -/
def isCacheValid (cache : Option CacheData) (now ttl : Int) : Bool :=
  match cache with
  | none => false
  | some data =>
    match data.updated_at with
    | none => false
    | some u => (now - u).fdiv 86400 ≤ ttl

/-! ## Structural lemmas about words and recognizer tables -/

theorem lookupStr_mem {α : Type} (tbl : List (String × α)) (s : String) (v : α)
    (h : lookupStr tbl s = some v) : (s, v) ∈ tbl := by
  induction tbl with
  | nil => exact absurd h (by simp [lookupStr])
  | cons kv rest ih =>
    obtain ⟨k, v0⟩ := kv
    unfold lookupStr at h
    by_cases hk : s = k
    · rw [if_pos hk] at h
      subst hk
      rw [Option.some_inj] at h
      subst h
      exact List.mem_cons_self _ _
    · rw [if_neg hk] at h
      exact List.mem_cons_of_mem _ (ih h)

theorem wordsGo_of_noSpace (l : List Char) :
    ∀ acc : List Char, (∀ c ∈ l, pyIsSpace c = false) →
      wordsGo acc l = if (acc.reverse ++ l).isEmpty then [] else [acc.reverse ++ l] := by
  induction l with
  | nil =>
    intro acc _
    unfold wordsGo
    by_cases h : acc.isEmpty
    · rw [if_pos h, if_pos (by simp_all)]
    · rw [if_neg h, if_neg (by simp_all)]
      simp
  | cons c cs ih =>
    intro acc hns
    unfold wordsGo
    rw [if_neg (by rw [hns c (by simp)]; simp)]
    rw [ih (c :: acc) (fun x hx => hns x (by simp [hx]))]
    have hne : ((c :: acc).reverse ++ cs).isEmpty = false := by simp
    have hne2 : (acc.reverse ++ c :: cs).isEmpty = false := by simp
    rw [hne, hne2]
    simp

/-- Two or more words force a whitespace character in the input. -/
theorem space_of_words_ge_two (s : String) (h : 2 ≤ (wordsOf s).length) :
    ∃ c ∈ s.data, pyIsSpace c = true := by
  by_contra hno
  push_neg at hno
  have hns : ∀ c ∈ s.data, pyIsSpace c = false := by
    intro c hc
    have := hno c hc
    simp_all
  have := wordsGo_of_noSpace s.data [] hns
  unfold wordsOf at h
  rw [this] at h
  by_cases he : (List.reverse [] ++ s.data).isEmpty
  · rw [if_pos he] at h; simp at h
  · rw [if_neg he] at h; simp at h

/-- If the normalized text splits into a number of words other than one,
no simple-relative literal matches it. -/
theorem simpleRel_none_of_words {t : String}
    (h : (wordsOf (normText t)).length ≠ 1) :
    lookupStr simpleRelTable (normText t) = none := by
  rcases heq : lookupStr simpleRelTable (normText t) with _ | v
  · rfl
  · exfalso
    have hmem := lookupStr_mem _ _ _ heq
    have hall : simpleRelTable.all (fun kv => (wordsOf kv.1).length == 1) = true := by decide
    have := (List.all_eq_true.mp hall) _ hmem
    simp only [beq_iff_eq] at this
    exact h this

/-- A word of a matched digit group starts with a digit character. -/
def hasDigitHead (s : String) : Bool :=
  match s.data with
  | c :: _ => c.isDigit
  | [] => false

theorem hasDigitHead_of_isDigitStr {s : String} (h : isDigitStr s = true) :
    hasDigitHead s = true := by
  unfold isDigitStr at h
  unfold hasDigitHead
  rcases hd : s.data with _ | ⟨c, cs⟩
  · rw [hd] at h; simp at h
  · rw [hd] at h
    simp only [Bool.and_eq_true, List.all_cons] at h
    exact h.2.1

theorem takeDigits_head {l : List Char} (h : 1 ≤ (takeDigits l).1.length) :
    ∃ c cs, l = c :: cs ∧ c.isDigit = true := by
  unfold takeDigits at h
  rcases l with _ | ⟨c, cs⟩
  · simp at h
  · by_cases hc : c.isDigit = true
    · exact ⟨c, cs, rfl, hc⟩
    · rw [List.takeWhile_cons_of_neg (by simp [hc])] at h
      simp at h

theorem pyIsSpace_of_digit {c : Char} (h : c.isDigit = true) : pyIsSpace c = false := by
  by_contra hs
  rw [Bool.not_eq_false] at hs
  unfold pyIsSpace at hs
  simp only [Bool.or_eq_true, decide_eq_true_eq] at hs
  rcases hs with ((((rfl | rfl) | rfl) | rfl) | rfl) | rfl <;> exact absurd h (by decide)

/-- Every character consumed by a numeric date pattern is a digit or the
separator. -/
theorem sepNum3_chars {sep : Char} {a1 b1 a2 b2 a3 b3 : Nat} {l : List Char}
    {v : Nat × Nat × Nat} (h : sepNum3 sep a1 b1 a2 b2 a3 b3 l = some v) :
    ∀ c ∈ l, c.isDigit = true ∨ c = sep := by
  unfold sepNum3 at h
  dsimp only at h
  split at h
  case isFalse => exact absurd h (by simp)
  case isTrue hlen1 =>
  split at h
  case h_2 => exact absurd h (by simp)
  case h_1 c r2 heq1 =>
  split at h
  case isFalse => exact absurd h (by simp)
  case isTrue hc1 =>
  split at h
  case isFalse => exact absurd h (by simp)
  case isTrue hlen2 =>
  split at h
  case h_2 => exact absurd h (by simp)
  case h_1 c2 r4 heq2 =>
  split at h
  case isFalse => exact absurd h (by simp)
  case isTrue hc2 =>
  split at h
  case isFalse => exact absurd h (by simp)
  case isTrue hlen3 =>
  obtain ⟨-, -, hend⟩ := hlen3
  intro x hx
  have hdec : l = l.takeWhile Char.isDigit ++ l.dropWhile Char.isDigit :=
    (List.takeWhile_append_dropWhile _ _).symm
  rw [hdec] at hx
  rcases List.mem_append.mp hx with hx1 | hx2
  · exact .inl (List.mem_takeWhile_imp hx1)
  · have hTD : ∀ m : List Char, (takeDigits m).2 = m.dropWhile Char.isDigit := fun _ => rfl
    rw [hTD] at heq1 heq2 hend
    rw [heq1] at hx2
    rcases hx2 with _ | ⟨_, hx3⟩
    · exact .inr hc1
    · have hdec2 : r2 = r2.takeWhile Char.isDigit ++ r2.dropWhile Char.isDigit :=
        (List.takeWhile_append_dropWhile _ _).symm
      rw [hdec2] at hx3
      rcases List.mem_append.mp hx3 with hx4 | hx5
      · exact .inl (List.mem_takeWhile_imp hx4)
      · rw [heq2] at hx5
        rcases hx5 with _ | ⟨_, hx6⟩
        · exact .inr hc2
        · have hdec3 : r4 = r4.takeWhile Char.isDigit ++ r4.dropWhile Char.isDigit :=
            (List.takeWhile_append_dropWhile _ _).symm
          rw [hdec3, hend] at hx6
          rcases List.mem_append.mp hx6 with hx7 | hx8
          · exact .inl (List.mem_takeWhile_imp hx7)
          · exact absurd hx8 (by simp)

theorem sepNum3_none_of_space {sep : Char} (a1 b1 a2 b2 a3 b3 : Nat) (l : List Char)
    (hsep : pyIsSpace sep = false) (hws : ∃ c ∈ l, pyIsSpace c = true) :
    sepNum3 sep a1 b1 a2 b2 a3 b3 l = none := by
  rcases heq : sepNum3 sep a1 b1 a2 b2 a3 b3 l with _ | v
  · rfl
  · exfalso
    obtain ⟨c, hc, hcs⟩ := hws
    rcases sepNum3_chars heq c hc with hd | rfl
    · rw [pyIsSpace_of_digit hd] at hcs
      exact Bool.noConfusion hcs
    · rw [hsep] at hcs
      exact Bool.noConfusion hcs

/-- A multi-word input is rejected by all three numeric date patterns. -/
theorem numeric_none_of_two_words (s : String) (h2 : 2 ≤ (wordsOf s).length) :
    isoMatch s.data = none ∧ dotMatch s.data = none ∧ slashMatch s.data = none := by
  have hws := space_of_words_ge_two s h2
  exact ⟨sepNum3_none_of_space _ _ _ _ _ _ _ (by decide) hws,
    sepNum3_none_of_space _ _ _ _ _ _ _ (by decide) hws,
    sepNum3_none_of_space _ _ _ _ _ _ _ (by decide) hws⟩

/-- Key facts about Russian month names: they are not weekday names and
not week/month period words. -/
theorem ruMonths_key_facts (s : String) (mn : Nat) (h : lookupStr ruMonths s = some mn) :
    lookupStr weekdaysTable s = none ∧
    s ≠ "неделя" ∧ s ≠ "неделю" ∧ s ≠ "неделе" ∧ s ≠ "week" ∧ s ≠ "неделу" ∧
    s ≠ "месяц" ∧ s ≠ "month" := by
  have hmem := lookupStr_mem _ _ _ h
  have hall : ruMonths.all (fun kv =>
      (lookupStr weekdaysTable kv.1).isNone &&
      !(kv.1 == "неделя") && !(kv.1 == "неделю") && !(kv.1 == "неделе") &&
      !(kv.1 == "week") && !(kv.1 == "неделу") &&
      !(kv.1 == "месяц") && !(kv.1 == "month")) = true := by decide
  have hfact := List.all_eq_true.mp hall _ hmem
  simp only [Bool.and_eq_true, Bool.not_eq_true', beq_eq_false_iff_ne,
    Option.isNone_iff_eq_none] at hfact
  obtain ⟨⟨⟨⟨⟨⟨⟨f1, f2⟩, f3⟩, f4⟩, f5⟩, f6⟩, f7⟩, f8⟩ := hfact
  exact ⟨f1, f2, f3, f4, f5, f6, f7, f8⟩

/-- Key facts about digit-initial words: they are not weekday names,
month names, or any literal word of the period/offset grammars. -/
theorem digitHead_key_facts (s : String) (h : hasDigitHead s = true) :
    lookupStr weekdaysTable s = none ∧ lookupStr ruMonths s = none ∧
    s ≠ "неделя" ∧ s ≠ "неделю" ∧ s ≠ "неделе" ∧ s ≠ "week" ∧ s ≠ "неделу" ∧
    s ≠ "месяц" ∧ s ≠ "month" := by
  refine ⟨?_, ?_, ?_, ?_, ?_, ?_, ?_, ?_, ?_⟩
  · rcases heq : lookupStr weekdaysTable s with _ | v
    · rfl
    · exfalso
      have hmem := lookupStr_mem _ _ _ heq
      have hall : weekdaysTable.all (fun kv => hasDigitHead kv.1 = false) = true := by decide
      have := List.all_eq_true.mp hall _ hmem
      simp only [decide_eq_true_eq] at this
      rw [this] at h
      exact Bool.noConfusion h
  · rcases heq : lookupStr ruMonths s with _ | v
    · rfl
    · exfalso
      have hmem := lookupStr_mem _ _ _ heq
      have hall : ruMonths.all (fun kv => hasDigitHead kv.1 = false) = true := by decide
      have := List.all_eq_true.mp hall _ hmem
      simp only [decide_eq_true_eq] at this
      rw [this] at h
      exact Bool.noConfusion h
  all_goals (rintro rfl; exact absurd h (by decide))

/-- With a two-word input whose second word is no weekday name and no
period/offset keyword, the whole cascade falls through to
`_parse_absolute`. -/
theorem cascade_two_words_to_absolute (ref : DateTime) (t a b : String)
    (hws : wordsOf (normText t) = [a, b])
    (hwkb : lookupStr weekdaysTable b = none)
    (hb : b ≠ "неделя" ∧ b ≠ "неделю" ∧ b ≠ "неделе" ∧ b ≠ "week" ∧ b ≠ "неделу" ∧
          b ≠ "месяц" ∧ b ≠ "month") :
    dateParse ref t =
      (match parseAbsolute ref (normText t) [a, b] with
        | some r => .ok { r with original_text := t }
        | none => .error (.unrecognized (normText t))) := by
  obtain ⟨hb1, hb2, hb3, hb4, hb5, hb6, hb7⟩ := hb
  have hsimple : parseSimpleRelative ref (normText t) = none := by
    unfold parseSimpleRelative
    rw [simpleRel_none_of_words (by rw [hws]; simp)]
    rfl
  have hwk : parseWeekday ref [a, b] = none := by
    unfold parseWeekday weekdayMatch
    dsimp only
    rw [hwkb]
    simp
  have hwp : parseWeekPeriod ref [a, b] = none := by
    have h1 : weekPeriodMatch [a, b] = none := by
      unfold weekPeriodMatch
      dsimp only
      have hnc : ¬((a = "эта" ∨ a = "эту" ∨ a = "следующая" ∨ a = "следующую" ∨
          a = "this" ∨ a = "next") ∧ (b = "неделя" ∨ b = "неделю" ∨ b = "неделе" ∨ b = "week")) := by
        rintro ⟨-, hbb⟩
        rcases hbb with rfl | rfl | rfl | rfl
        · exact hb1 rfl
        · exact hb2 rfl
        · exact hb3 rfl
        · exact hb4 rfl
      rw [if_neg hnc]
    have h2 : weeksOffsetMatch [a, b] = none := rfl
    have h3 : weekSingleMatch [a, b] = false := by
      unfold weekSingleMatch
      dsimp only
      apply decide_eq_false
      rintro ⟨-, hbb⟩
      rcases hbb with rfl | rfl | rfl
      · exact hb2 rfl
      · exact hb5 rfl
      · exact hb4 rfl
    unfold parseWeekPeriod
    rw [h1]
    dsimp only
    rw [h2]
    dsimp only
    rw [h3]
    simp
  have hmp : parseMonthPeriod ref [a, b] = none := by
    have h1 : monthPeriodMatch [a, b] = none := by
      unfold monthPeriodMatch
      dsimp only
      have hnc : ¬((a = "этот" ∨ a = "следующий" ∨ a = "this" ∨ a = "next") ∧
          (b = "месяц" ∨ b = "month")) := by
        rintro ⟨-, hbb⟩
        rcases hbb with rfl | rfl
        · exact hb6 rfl
        · exact hb7 rfl
      rw [if_neg hnc]
    unfold parseMonthPeriod
    rw [h1]
  have hof : parseOffset ref [a, b] = none := by
    have hd : daysOffsetMatch [a, b] = none := rfl
    have hmo : monthsOffsetMatch [a, b] = none := rfl
    have hms : monthSingleMatch [a, b] = false := by
      unfold monthSingleMatch
      dsimp only
      apply decide_eq_false
      rintro ⟨-, hbb⟩
      rcases hbb with rfl | rfl
      · exact hb6 rfl
      · exact hb7 rfl
    unfold parseOffset
    rw [hd]
    dsimp only
    rw [hmo]
    dsimp only
    rw [hms]
    simp
  unfold dateParse
  simp only [hsimple, hws, hwk, hwp, hmp, hof]

/-! ## Claim analysis -/

/-- A fixed reference instant used in concrete checks:
Monday 2026-02-02, midnight (the fixture of the repository's unit tests). -/
def refMonday : DateTime := ⟨⟨2026, 2, 2⟩, 0⟩

/-- C8 counterexample: `__post_init__` accepts a value that is marked as a
period, carries both bounds, and *also* carries a single `date` — the two
variants are not mutually exclusive at construction time. -/
theorem mkParsedDate_mixed_value_accepted :
    mkParsedDate (some ⟨2026, 2, 15⟩) (some ⟨2026, 2, 1⟩) (some ⟨2026, 2, 28⟩) true "x"
      = .ok ⟨some ⟨2026, 2, 15⟩, some ⟨2026, 2, 1⟩, some ⟨2026, 2, 28⟩, true, "x"⟩ := rfl

/-- C8 (amended): construction-time validation checks only *presence*:
a period value must carry both `date_from` and `date_to`, a non-period
value must carry `date`; the other variant's fields are not forbidden. -/
theorem mkParsedDate_ok_iff (d f t2 : Option Date) (ip : Bool) (s : String) :
    (mkParsedDate d f t2 ip s).isOk = true ↔
      (if ip = true then f.isSome = true ∧ t2.isSome = true else d.isSome = true) := by
  cases ip <;> cases d <;> cases f <;> cases t2 <;>
    simp [mkParsedDate, Except.isOk, Except.toBool]

/-- C10: an unloaded registry answers lookups with empty results rather
than an error, and `find_airport` is the head of `find_airports(·, 1)`. -/
theorem find_airport_find_airports_consistency (ratio : String → String → ℚ)
    (r : AirportRegistry) (q : String) (limit : Nat) :
    (r.loaded = false → r.find_airports ratio q limit = [] ∧ r.find_airport ratio q = none) ∧
    (r.loaded = true → r.find_airport ratio q = (r.find_airports ratio q 1).head?) := by
  constructor
  · intro h
    have he : r.find_airports ratio q 1 = [] := by
      unfold AirportRegistry.find_airports
      rw [h]
      simp
    refine ⟨?_, ?_⟩
    · unfold AirportRegistry.find_airports
      rw [h]
      simp
    · unfold AirportRegistry.find_airport
      rw [he]
      rfl
  · intro _
    rfl

/-- C10 witness: concrete unloaded registry and the head relation. -/
theorem find_airport_find_airports_consistency_witness :
    ((⟨[], false⟩ : AirportRegistry).find_airports (fun _ _ => 0) "москва" 5 = [] ∧
      (⟨[], false⟩ : AirportRegistry).find_airport (fun _ _ => 0) "москва" = none) ∧
    (⟨[], true⟩ : AirportRegistry).find_airport (fun _ _ => 0) "москва" =
      ((⟨[], true⟩ : AirportRegistry).find_airports (fun _ _ => 0) "москва" 1).head? :=
  ⟨(find_airport_find_airports_consistency (fun _ _ => 0) ⟨[], false⟩ "москва" 5).1 rfl,
   (find_airport_find_airports_consistency (fun _ _ => 0) ⟨[], true⟩ "москва" 5).2 rfl⟩

/-- C5 counterexample: with the default 30-day TTL, a snapshot aged
30 days + 1 second is still accepted by both cache-read checks
(`timedelta.days` floors, so the age in whole days is still 30). -/
theorem cache_one_second_past_boundary_accepted :
    isCacheValid (some ⟨"1.0", some 0, []⟩) (30 * 86400 + 1) 30 = true ∧
    (loadFromCache ⟨[], false⟩ (some ⟨"1.0", some 0, []⟩) (30 * 86400 + 1) 30).1 = true :=
  ⟨rfl, rfl⟩

/-- C5 (amended): a well-versioned snapshot is accepted exactly when its
age is below `(ttl + 1)` whole days: the exact-TTL boundary is accepted
(as claimed), and so is every instant up to one second before the next
whole day; rejection starts only at `ttl + 1` full days. -/
theorem cache_staleness_floor (r : AirportRegistry) (A : List Airport) (u now ttl : Int) :
    ((loadFromCache r (some ⟨"1.0", some u, A⟩) now ttl).1 = true ↔
      now - u < (ttl + 1) * 86400) ∧
    (isCacheValid (some ⟨"1.0", some u, A⟩) now ttl = true ↔
      now - u < (ttl + 1) * 86400) := by
  have hfd : (now - u).fdiv 86400 = (now - u) / 86400 :=
    Int.fdiv_eq_ediv _ (by norm_num)
  constructor
  · constructor
    · intro hx
      by_contra hlt
      have hgt : ttl < (now - u).fdiv 86400 := by rw [hfd]; omega
      simp only [loadFromCache] at hx
      rw [if_neg (by simp), if_pos hgt] at hx
      exact absurd hx (by simp)
    · intro hx
      have hle : ¬ ttl < (now - u).fdiv 86400 := by rw [hfd]; omega
      simp only [loadFromCache]
      rw [if_neg (by simp), if_neg hle]
  · constructor
    · intro hx
      simp only [isCacheValid] at hx
      rw [hfd] at hx
      have : (now - u) / 86400 ≤ ttl := by exact_mod_cast of_decide_eq_true hx
      omega
    · intro hx
      simp only [isCacheValid]
      rw [hfd]
      have : (now - u) / 86400 ≤ ttl := by omega
      exact decide_eq_true this

/-- C9: saving a registry snapshot and loading it into a fresh registry
instance within the staleness window reconstructs the record list exactly
(in particular the record sets are equal). -/
theorem cache_round_trip (r : AirportRegistry) (t now ttl : Int)
    (h : now - t < (ttl + 1) * 86400) :
    loadFromCache ⟨[], false⟩ (some (saveToCache r t)) now ttl =
      (true, ⟨r.airports, true⟩) := by
  have hfd : (now - t).fdiv 86400 = (now - t) / 86400 :=
    Int.fdiv_eq_ediv _ (by norm_num)
  unfold loadFromCache saveToCache
  simp only
  rw [if_neg (by simp), hfd, if_neg (by omega)]

/-- C9 witness: a concrete registry snapshot is rebuilt identically. -/
theorem cache_round_trip_witness :
    loadFromCache ⟨[], false⟩
        (some (saveToCache ⟨[⟨"s9600820", "Шереметьево", "Москва", "Московская область",
          "Россия", 55, 37, ["Москва", "SVO"]⟩], true⟩ 100)) 50000 30 =
      (true, ⟨[⟨"s9600820", "Шереметьево", "Москва", "Московская область",
          "Россия", 55, 37, ["Москва", "SVO"]⟩], true⟩) :=
  cache_round_trip ⟨[⟨"s9600820", "Шереметьево", "Москва", "Московская область",
    "Россия", 55, 37, ["Москва", "SVO"]⟩], true⟩ 100 50000 30 (by norm_num)

/-- A year-less Russian textual date comes from a two-word input:
digits then a month name. -/
theorem ruTextMatch_yearless_shape {ws : List String} {d m : Nat}
    (h : ruTextMatch ws = some (d, m, none)) :
    ∃ a b, ws = [a, b] ∧ isDigitStr a = true ∧ lookupStr ruMonths b = some m ∧
      digitsVal a.data = d := by
  rcases ws with _ | ⟨a, _ | ⟨b, _ | ⟨c, _ | ⟨e, rest⟩⟩⟩⟩
  · exact absurd h (by simp [ruTextMatch])
  · exact absurd h (by simp [ruTextMatch])
  · refine ⟨a, b, rfl, ?_⟩
    unfold ruTextMatch at h
    dsimp only at h
    rcases hlk : lookupStr ruMonths b with _ | mn
    · rw [hlk] at h
      simp at h
    · rw [hlk] at h
      dsimp only at h
      split at h
      · next hcond =>
        simp only [Option.some_inj, Prod.mk.injEq] at h
        obtain ⟨hd, hm, -⟩ := h
        exact ⟨hcond.1, by rw [hm], hd⟩
      · simp at h
  · exfalso
    unfold ruTextMatch at h
    dsimp only at h
    rcases hlk : lookupStr ruMonths b with _ | mn
    · rw [hlk] at h
      simp at h
    · rw [hlk] at h
      dsimp only at h
      split at h
      · simp at h
      · simp at h
  · exact absurd h (by simp [ruTextMatch])

/-- A year-less English textual date comes from a two-word input:
a month name then a day token. -/
theorem enTextMatch_yearless_shape {ws : List String} {d m : Nat}
    (h : enTextMatch ws = some (d, m, none)) :
    ∃ a b, ws = [a, b] ∧ lookupStr enMonths a = some m ∧
      enDayTok b.data false = some d := by
  rcases ws with _ | ⟨a, _ | ⟨b, _ | ⟨c, _ | ⟨e, rest⟩⟩⟩⟩
  · exact absurd h (by simp [enTextMatch])
  · exact absurd h (by simp [enTextMatch])
  · refine ⟨a, b, rfl, ?_⟩
    unfold enTextMatch at h
    dsimp only at h
    rcases hlk : lookupStr enMonths a with _ | mn
    · rw [hlk] at h
      simp at h
    · rw [hlk] at h
      dsimp only at h
      rcases hdt : enDayTok b.data false with _ | dn
      · rw [hdt] at h
        simp at h
      · rw [hdt] at h
        simp only [Option.map_some', Option.some_inj, Prod.mk.injEq] at h
        obtain ⟨h1, h2, -⟩ := h
        exact ⟨by rw [h2], by rw [h1]⟩
  · exfalso
    unfold enTextMatch at h
    dsimp only at h
    rcases hlk : lookupStr enMonths a with _ | mn
    · rw [hlk] at h
      simp at h
    · rw [hlk] at h
      dsimp only at h
      split at h
      · rcases hdt : enDayTok b.data true with _ | dn
        · rw [hdt] at h
          simp at h
        · rw [hdt] at h
          simp at h
      · simp at h
  · exact absurd h (by simp [enTextMatch])

theorem hasDigitHead_of_enDayTok {l : List Char} {d : Nat} {b : Bool}
    (h : enDayTok l b = some d) : hasDigitHead (⟨l⟩ : String) = true := by
  unfold enDayTok at h
  dsimp only at h
  split at h
  case isFalse => exact absurd h (by simp)
  case isTrue hlen =>
  obtain ⟨c, cs, hl, hc⟩ := @takeDigits_head l (by omega)
  subst hl
  exact hc

/-- Closed form of the `while new_month > 12` loop. -/
theorem normMonth_eq (m : Nat) : 1 ≤ m → ∀ y : Nat,
    normMonth y m = (y + (m - 1) / 12, (m - 1) % 12 + 1) := by
  induction m using Nat.strong_induction_on with
  | _ m ih =>
    intro hm y
    rw [normMonth]
    by_cases h : 12 < m
    · rw [if_pos h, ih (m - 12) (by omega) (by omega) (y + 1)]
      simp only [Prod.mk.injEq]
      constructor <;> omega
    · rw [if_neg h]
      simp only [Prod.mk.injEq]
      constructor <;> omega

/-- The day clamp of `_parse_offset` yields the requested day when it
exists in the target month and the last day of that month otherwise. -/
theorem clampDay_spec (y m day : Nat) (hy : 1 ≤ y) (hm1 : 1 ≤ m) (hm2 : m ≤ 12)
    (hd : 1 ≤ day) : clampDay y m day = ⟨y, m, min day (daysInMonth y m)⟩ := by
  unfold clampDay mkDatetime
  by_cases h : day ≤ daysInMonth y m
  · rw [if_pos ⟨hy, hm1, hm2, hd, h⟩, Nat.min_eq_left h]
  · rw [if_neg (fun hc => h hc.2.2.2.2)]
    have hge : daysInMonth y m ≤ day := by omega
    rw [Nat.min_eq_right hge]
    by_cases h12 : m = 12
    · subst h12
      rw [if_pos rfl, prevDay_firstOfYear y hy, daysInMonth_twelve]
    · rw [if_neg h12]
      have hsub : m - 1 + 1 = m := by omega
      rw [show (⟨y, m + 1, 1⟩ : Date) = ⟨y, (m - 1) + 1 + 1, 1⟩ by rw [hsub],
        prevDay_firstOfMonth (by omega), hsub]

/-- C7: resolving `in N months` adds exactly N calendar months
(month index arithmetic, never wrapping further) and keeps the reference
day-of-month, clamped to the last valid day of the target month; the
outcome is always a single-date success, never an error. -/
theorem month_offset_clamp (ref : DateTime) (t : String) (n : Nat)
    (hv : ValidDate ref.date) (hn : 1 ≤ n)
    (hm : monthsOffsetMatch (wordsOf (normText t)) = some n) :
    ∃ tgt : Date,
      dateParse ref t = .ok { date := some tgt, is_period := false, original_text := t } ∧
      tgt.year * 12 + tgt.month = ref.date.year * 12 + ref.date.month + n ∧
      tgt.day = min ref.date.day (daysInMonth tgt.year tgt.month) ∧
      ValidDate tgt := by
  obtain ⟨hy1, hm1, hm2, hd1, hd2⟩ := hv
  -- the months-offset pattern matches only a three-word input
  rcases hws : wordsOf (normText t) with _ | ⟨p, _ | ⟨ntok, _ | ⟨w, _ | ⟨x, rest⟩⟩⟩⟩ <;>
    rw [hws] at hm
  · simp [monthsOffsetMatch] at hm
  · simp [monthsOffsetMatch] at hm
  · simp [monthsOffsetMatch] at hm
  case cons.cons.cons.cons => simp [monthsOffsetMatch] at hm
  unfold monthsOffsetMatch at hm
  dsimp only at hm
  split at hm
  case isFalse => exact absurd hm (by simp)
  case isTrue hcond =>
  obtain ⟨hp, hdig, hw⟩ := hcond
  rw [Option.some_inj] at hm
  subst hm
  -- every earlier recognizer in the cascade rejects this word shape
  have hsimple : parseSimpleRelative ref (normText t) = none := by
    unfold parseSimpleRelative
    rw [simpleRel_none_of_words (by rw [hws]; simp)]
    rfl
  have hwk : parseWeekday ref [p, ntok, w] = none := by
    unfold parseWeekday weekdayMatch
    dsimp only
    have hnc : ¬(p ∈ nextQualifiers ∧ ntok = "в") := by
      rintro ⟨hin, -⟩
      rcases hp with rfl | rfl <;> revert hin <;> decide
    rw [if_neg hnc]
    rfl
  have hwp : parseWeekPeriod ref [p, ntok, w] = none := by
    have h1 : weekPeriodMatch [p, ntok, w] = none := rfl
    have h2 : weeksOffsetMatch [p, ntok, w] = none := by
      unfold weeksOffsetMatch
      dsimp only
      have hnc : ¬((p = "через" ∨ p = "in") ∧ isDigitStr ntok = true ∧
          (w = "недели" ∨ w = "недель" ∨ w = "неделю" ∨ w = "неделя" ∨
            w = "week" ∨ w = "weeks")) := by
        rintro ⟨-, -, hww⟩
        rcases hw with rfl | rfl | rfl | rfl | rfl | rfl <;> revert hww <;> decide
      rw [if_neg hnc]
    have h3 : weekSingleMatch [p, ntok, w] = false := by
      unfold weekSingleMatch
      dsimp only
      apply decide_eq_false
      rintro ⟨-, ha, -⟩
      rw [ha] at hdig
      exact absurd hdig (by decide)
    unfold parseWeekPeriod
    rw [h1]
    dsimp only
    rw [h2]
    dsimp only
    rw [h3]
    simp
  have hmp : parseMonthPeriod ref [p, ntok, w] = none := rfl
  have hdo : daysOffsetMatch [p, ntok, w] = none := by
    unfold daysOffsetMatch
    dsimp only
    have hnc : ¬((p = "через" ∨ p = "in") ∧ isDigitStr ntok = true ∧
        (w = "день" ∨ w = "дня" ∨ w = "дней" ∨ w = "day" ∨ w = "days")) := by
      rintro ⟨-, -, hww⟩
      rcases hw with rfl | rfl | rfl | rfl | rfl | rfl <;> revert hww <;> decide
    rw [if_neg hnc]
  -- the target month/year produced by the while-loop
  have hnm := normMonth_eq (ref.date.month + digitsVal ntok.data) (by omega) ref.date.year
  have hclamp := clampDay_spec
    (ref.date.year + (ref.date.month + digitsVal ntok.data - 1) / 12)
    ((ref.date.month + digitsVal ntok.data - 1) % 12 + 1) ref.date.day
    (by omega) (by omega) (by omega) hd1
  have hmm : monthsOffsetMatch [p, ntok, w] = some (digitsVal ntok.data) := by
    unfold monthsOffsetMatch
    dsimp only
    rw [if_pos ⟨hp, hdig, hw⟩]
  have hoff : parseOffset ref [p, ntok, w] =
      some { date := some ⟨ref.date.year + (ref.date.month + digitsVal ntok.data - 1) / 12,
               (ref.date.month + digitsVal ntok.data - 1) % 12 + 1,
               min ref.date.day
                 (daysInMonth (ref.date.year + (ref.date.month + digitsVal ntok.data - 1) / 12)
                   ((ref.date.month + digitsVal ntok.data - 1) % 12 + 1))⟩,
             is_period := false } := by
    unfold parseOffset
    rw [hdo]
    dsimp only
    rw [hmm]
    dsimp only
    rw [hnm]
    dsimp only
    rw [hclamp]
  refine ⟨⟨ref.date.year + (ref.date.month + digitsVal ntok.data - 1) / 12,
    (ref.date.month + digitsVal ntok.data - 1) % 12 + 1,
    min ref.date.day
      (daysInMonth (ref.date.year + (ref.date.month + digitsVal ntok.data - 1) / 12)
        ((ref.date.month + digitsVal ntok.data - 1) % 12 + 1))⟩, ?_, ?_, ?_, ?_⟩
  · unfold dateParse
    simp only [hsimple, hws, hwk, hwp, hmp, hoff]
  · simp only [year_mk, month_mk]
    omega
  · simp only [year_mk, month_mk, day_mk]
  · refine validDate_mk (by omega) (by omega) (by omega) ?_ ?_
    · have := @daysInMonth_pos
        (ref.date.year + (ref.date.month + digitsVal ntok.data - 1) / 12)
        ((ref.date.month + digitsVal ntok.data - 1) % 12 + 1) (by omega) (by omega)
      omega
    · omega

/-- C7 witness: `in 1 month` from 2026-01-31 yields 2026-02-28. -/
theorem month_offset_clamp_witness :
    ∃ tgt : Date,
      dateParse ⟨⟨2026, 1, 31⟩, 0⟩ "in 1 month" =
        .ok { date := some tgt, is_period := false, original_text := "in 1 month" } ∧
      tgt.year * 12 + tgt.month = 2026 * 12 + 1 + 1 ∧
      tgt.day = min 31 (daysInMonth tgt.year tgt.month) ∧
      ValidDate tgt :=
  month_offset_clamp ⟨⟨2026, 1, 31⟩, 0⟩ "in 1 month" 1 (by decide) (by norm_num) rfl

theorem validDate_addDaysInt {d : Date} (h : ValidDate d) (k : Int) :
    ValidDate (addDaysInt d k) := by
  unfold addDaysInt
  split
  · exact validDate_addDays h _
  · exact validDate_subDays h _

theorem parseSimpleRelative_not_period {ref : DateTime} {t : String} {r : ParsedDate}
    (h : parseSimpleRelative ref t = some r) : r.is_period = false := by
  unfold parseSimpleRelative at h
  rcases hlk : lookupStr simpleRelTable t with _ | off <;> rw [hlk] at h
  · exact absurd h (by simp)
  · simp only [Option.map_some', Option.some_inj] at h
    rw [← h]

theorem parseWeekday_not_period {ref : DateTime} {ws : List String} {r : ParsedDate}
    (h : parseWeekday ref ws = some r) : r.is_period = false := by
  unfold parseWeekday at h
  rcases hlk : weekdayMatch ws with _ | bw <;> rw [hlk] at h
  · exact absurd h (by simp)
  · simp only [Option.map_some', Option.some_inj] at h
    rw [← h]

theorem parseOffset_not_period {ref : DateTime} {ws : List String} {r : ParsedDate}
    (h : parseOffset ref ws = some r) : r.is_period = false := by
  unfold parseOffset at h
  rcases h1 : daysOffsetMatch ws with _ | n <;> rw [h1] at h
  · dsimp only at h
    rcases h2 : monthsOffsetMatch ws with _ | n2 <;> rw [h2] at h
    · dsimp only at h
      split at h
      · rw [Option.some_inj] at h
        rw [← h]
      · exact absurd h (by simp)
    · rw [Option.some_inj] at h
      rw [← h]
  · rw [Option.some_inj] at h
    rw [← h]

theorem parseAbsolute_not_period {ref : DateTime} {t : String} {ws : List String}
    {r : ParsedDate} (h : parseAbsolute ref t ws = some r) : r.is_period = false := by
  unfold parseAbsolute at h
  rcases h1 : isoMatch t.data with _ | ⟨y1, m1, d1⟩ <;> rw [h1] at h <;> dsimp only at h
  · rcases h2 : dotMatch t.data with _ | ⟨y2, m2, d2⟩ <;> rw [h2] at h <;> dsimp only at h
    · rcases h3 : slashMatch t.data with _ | ⟨y3, m3, d3⟩ <;> rw [h3] at h <;> dsimp only at h
      · rcases h4 : ruTextMatch ws with _ | ⟨d4, m4, y4⟩ <;> rw [h4] at h <;> dsimp only at h
        · rcases h5 : enTextMatch ws with _ | ⟨d5, m5, y5⟩ <;> rw [h5] at h <;>
            dsimp only at h
          · exact absurd h (by simp)
          · simp only [Option.map_eq_some'] at h
            obtain ⟨dt, -, hr⟩ := h
            rw [← hr]
        · simp only [Option.map_eq_some'] at h
          obtain ⟨dt, -, hr⟩ := h
          rw [← hr]
      · simp only [Option.map_eq_some'] at h
        obtain ⟨dt, -, hr⟩ := h
        rw [← hr]
    · simp only [Option.map_eq_some'] at h
      obtain ⟨dt, -, hr⟩ := h
      rw [← hr]
  · simp only [Option.map_eq_some'] at h
    obtain ⟨dt, -, hr⟩ := h
    rw [← hr]

/-- Every period produced by `_parse_week_period` starts at some computed
day and ends exactly six days later. -/
theorem parseWeekPeriod_shape {ref : DateTime} {ws : List String} {r : ParsedDate}
    (h : parseWeekPeriod ref ws = some r) :
    ∃ s : Date, r = ⟨none, some s, some (addDays s 6), true, ""⟩ ∧
      (ValidDate ref.date → ValidDate s) := by
  unfold parseWeekPeriod at h
  rcases h1 : weekPeriodMatch ws with _ | p <;> rw [h1] at h <;> dsimp only at h
  case some =>
    split at h
    · rw [Option.some_inj] at h
      exact ⟨_, h.symm, fun hv => validDate_addDaysInt hv _⟩
    · rw [Option.some_inj] at h
      exact ⟨_, h.symm, fun hv => validDate_addDays (validDate_addDaysInt hv _) 7⟩
  rcases h2 : weeksOffsetMatch ws with _ | n <;> rw [h2] at h <;> dsimp only at h
  case some =>
    rw [Option.some_inj] at h
    exact ⟨_, h.symm, fun hv => validDate_addDaysInt hv _⟩
  split at h
  · rw [Option.some_inj] at h
    exact ⟨_, h.symm, fun hv => validDate_addDaysInt hv _⟩
  · exact absurd h (by simp)

/-- Every period produced by `_parse_month_period` spans one full month. -/
theorem parseMonthPeriod_shape {ref : DateTime} {ws : List String} {r : ParsedDate}
    (h : parseMonthPeriod ref ws = some r) (hv : ValidDate ref.date) :
    ∃ y m, 1 ≤ y ∧ 1 ≤ m ∧ m ≤ 12 ∧
      r = ⟨none, some ⟨y, m, 1⟩, some ⟨y, m, daysInMonth y m⟩, true, ""⟩ := by
  obtain ⟨hy1, hm1, hm2, -, -⟩ := hv
  unfold parseMonthPeriod at h
  rcases h1 : monthPeriodMatch ws with _ | p <;> rw [h1] at h <;> dsimp only at h
  case none => exact absurd h (by simp)
  rw [Option.some_inj] at h
  by_cases hp : p = "этот" ∨ p = "this"
  · rw [if_pos hp] at h
    dsimp only at h
    refine ⟨ref.date.year, ref.date.month, hy1, hm1, hm2, ?_⟩
    rw [← h]
    by_cases h12 : ref.date.month = 12
    · rw [if_pos h12, h12, prevDay_firstOfYear _ hy1, daysInMonth_twelve]
    · rw [if_neg h12]
      have hlt : ref.date.month < 12 := by omega
      have heq : (⟨ref.date.year, ref.date.month + 1, 1⟩ : Date) =
          ⟨ref.date.year, (ref.date.month - 1) + 1 + 1, 1⟩ := by
        simp only [Date.mk.injEq, eq_self_iff_true, true_and, and_true]
        omega
      rw [heq, prevDay_firstOfMonth (by omega)]
      have hback : ref.date.month - 1 + 1 = ref.date.month := by omega
      rw [hback]
  · rw [if_neg hp] at h
    by_cases h12 : ref.date.month = 12
    · rw [if_pos h12] at h
      dsimp only at h
      refine ⟨ref.date.year + 1, 1, by omega, by omega, by omega, ?_⟩
      rw [← h]
      have hne : (1 : Nat) ≠ 12 := by omega
      rw [if_neg hne, show (⟨ref.date.year + 1, 1 + 1, 1⟩ : Date) =
        ⟨ref.date.year + 1, 1 + 1, 1⟩ from rfl]
      have := prevDay_firstOfMonth (y := ref.date.year + 1) (m := 1) (by omega)
      rw [this]
    · rw [if_neg h12] at h
      dsimp only at h
      refine ⟨ref.date.year, ref.date.month + 1, hy1, by omega, by omega, ?_⟩
      rw [← h]
      by_cases hEleven : ref.date.month + 1 = 12
      · rw [if_pos hEleven, hEleven, prevDay_firstOfYear _ hy1, daysInMonth_twelve]
      · rw [if_neg hEleven]
        have := prevDay_firstOfMonth (y := ref.date.year) (m := ref.date.month + 1) (by omega)
        rw [this]

/-- C6: every period outcome of the resolver satisfies
`date_from ≤ date_to`, and its inclusive span is exactly 7 days
(week-period grammars) or exactly the named month's true day count
(month-period grammars, first through last day). -/
theorem period_outcome_invariant (ref : DateTime) (t : String) (p : ParsedDate)
    (hv : ValidDate ref.date) (hp : dateParse ref t = .ok p)
    (hper : p.is_period = true) :
    ∃ f g, p.date_from = some f ∧ p.date_to = some g ∧ ValidDate f ∧ ValidDate g ∧
      toOrdinal f ≤ toOrdinal g ∧
      (toOrdinal g = toOrdinal f + 6 ∨
        (g.year = f.year ∧ g.month = f.month ∧ f.day = 1 ∧
          g.day = daysInMonth g.year g.month)) := by
  unfold dateParse at hp
  dsimp only at hp
  rcases h1 : parseSimpleRelative ref (normText t) with _ | r1 <;>
    rw [h1] at hp <;> dsimp only at hp
  case some =>
    rw [Except.ok.injEq] at hp
    rw [← hp] at hper
    exact absurd hper (by rw [parseSimpleRelative_not_period h1]; simp)
  rcases h2 : parseWeekday ref (wordsOf (normText t)) with _ | r2 <;>
    rw [h2] at hp <;> dsimp only at hp
  case some =>
    rw [Except.ok.injEq] at hp
    rw [← hp] at hper
    exact absurd hper (by rw [parseWeekday_not_period h2]; simp)
  rcases h3 : parseWeekPeriod ref (wordsOf (normText t)) with _ | r3 <;>
    rw [h3] at hp <;> dsimp only at hp
  case some =>
    rw [Except.ok.injEq] at hp
    obtain ⟨s, hr3, hvs⟩ := parseWeekPeriod_shape h3
    have hvs' := hvs hv
    refine ⟨s, addDays s 6, ?_, ?_, hvs', validDate_addDays hvs' 6, ?_, .inl ?_⟩
    · rw [← hp, hr3]
    · rw [← hp, hr3]
    · rw [toOrdinal_addDays hvs' 6]; omega
    · exact toOrdinal_addDays hvs' 6
  rcases h4 : parseMonthPeriod ref (wordsOf (normText t)) with _ | r4 <;>
    rw [h4] at hp <;> dsimp only at hp
  case some =>
    rw [Except.ok.injEq] at hp
    obtain ⟨y, m, hy, hm1, hm2, hr4⟩ := parseMonthPeriod_shape h4 hv
    have hdim : 1 ≤ daysInMonth y m := daysInMonth_pos hm1 hm2
    refine ⟨⟨y, m, 1⟩, ⟨y, m, daysInMonth y m⟩, ?_, ?_, ?_, ?_, ?_, .inr ?_⟩
    · rw [← hp, hr4]
    · rw [← hp, hr4]
    · exact validDate_mk hy hm1 hm2 (by omega) hdim
    · exact validDate_mk hy hm1 hm2 hdim (le_refl _)
    · rw [toOrdinal_mk, toOrdinal_mk]; omega
    · simp
  rcases h5 : parseOffset ref (wordsOf (normText t)) with _ | r5 <;>
    rw [h5] at hp <;> dsimp only at hp
  case some =>
    rw [Except.ok.injEq] at hp
    rw [← hp] at hper
    exact absurd hper (by rw [parseOffset_not_period h5]; simp)
  rcases h6 : parseAbsolute ref (normText t) (wordsOf (normText t)) with _ | r6 <;>
    rw [h6] at hp <;> dsimp only at hp
  case some =>
    rw [Except.ok.injEq] at hp
    rw [← hp] at hper
    exact absurd hper (by rw [parseAbsolute_not_period h6]; simp)
  exact absurd hp (by simp)

set_option maxRecDepth 100000 in
/-- C6 witness: the period for "next week" from Monday 2026-02-02. -/
theorem period_outcome_invariant_witness :
    ∃ f g, (ParsedDate.date_from
        ⟨none, some ⟨2026, 2, 9⟩, some ⟨2026, 2, 15⟩, true, "next week"⟩) = some f ∧
      (ParsedDate.date_to
        ⟨none, some ⟨2026, 2, 9⟩, some ⟨2026, 2, 15⟩, true, "next week"⟩) = some g ∧
      ValidDate f ∧ ValidDate g ∧ toOrdinal f ≤ toOrdinal g ∧
      (toOrdinal g = toOrdinal f + 6 ∨
        (g.year = f.year ∧ g.month = f.month ∧ f.day = 1 ∧
          g.day = daysInMonth g.year g.month)) :=
  period_outcome_invariant refMonday "next week"
    ⟨none, some ⟨2026, 2, 9⟩, some ⟨2026, 2, 15⟩, true, "next week"⟩
    (by decide) rfl rfl

/-- C3 (amended): for a textual absolute date without a year (Russian or
English form), the resolver uses the reference year unless
`datetime(ref_year, m, d)` — taken at *midnight* — compares strictly
below the full reference **instant**; hence the reference time-of-day
does matter: a date equal to the reference calendar day stays in the
reference year only when the reference time-of-day is exactly midnight,
and moves to the next year otherwise. -/
theorem yearless_textual_year_inference (ref : DateTime) (t : String) (d m : Nat)
    (dt0 : Date) (hv : ValidDate ref.date)
    (hmatch : ruTextMatch (wordsOf (normText t)) = some (d, m, none) ∨
              enTextMatch (wordsOf (normText t)) = some (d, m, none))
    (h0 : mkDatetime ref.date.year m d = some dt0) :
    (∀ dt, mkDatetime (if dtLtRef dt0 ref then ref.date.year + 1 else ref.date.year) m d
        = some dt →
      dateParse ref t = .ok { date := some dt, is_period := false, original_text := t }) ∧
    (mkDatetime (if dtLtRef dt0 ref then ref.date.year + 1 else ref.date.year) m d = none →
      dateParse ref t = .error (.unrecognized (normText t))) ∧
    (dtLtRef dt0 ref = true ↔
      (m < ref.date.month ∨ (m = ref.date.month ∧ d < ref.date.day) ∨
        (m = ref.date.month ∧ d = ref.date.day ∧ 0 < ref.tod))) := by
  have hdt0 : dt0 = ⟨ref.date.year, m, d⟩ := by
    unfold mkDatetime at h0
    split at h0
    · exact (Option.some_inj.mp h0).symm
    · exact absurd h0 (by simp)
  have hyp : yearlessPick ref m d =
      (if dtLtRef dt0 ref then ref.date.year + 1 else ref.date.year) := by
    unfold yearlessPick
    rw [h0]
  have hmain : dateParse ref t =
      (match mkDatetime (if dtLtRef dt0 ref then ref.date.year + 1 else ref.date.year) m d with
        | some dt => .ok { date := some dt, is_period := false, original_text := t }
        | none => .error (.unrecognized (normText t))) := by
    rcases hmatch with hmru | hmen
    · obtain ⟨a, b, hws, hdig, hlk, hdval⟩ := ruTextMatch_yearless_shape hmru
      obtain ⟨k1, k2, k3, k4, k5, k6, k7, k8⟩ := ruMonths_key_facts b m hlk
      have hcas := cascade_two_words_to_absolute ref t a b hws k1
        ⟨k2, k3, k4, k5, k6, k7, k8⟩
      have hnum := numeric_none_of_two_words (normText t) (by rw [hws]; simp)
      have hru' : ruTextMatch [a, b] = some (d, m, none) := by rw [← hws]; exact hmru
      have habs : parseAbsolute ref (normText t) [a, b] =
          (mkDatetime (yearlessPick ref m d) m d).map
            (fun dt => { date := some dt, is_period := false }) := by
        unfold parseAbsolute
        rw [hnum.1]
        dsimp only
        rw [hnum.2.1]
        dsimp only
        rw [hnum.2.2]
        dsimp only
        rw [hru']
      rw [hcas, habs, hyp]
      rcases hmk : mkDatetime
          (if dtLtRef dt0 ref then ref.date.year + 1 else ref.date.year) m d with _ | dt <;>
        rfl
    · obtain ⟨a, b, hws, hlk, hdtk⟩ := enTextMatch_yearless_shape hmen
      have hdh : hasDigitHead b = true := hasDigitHead_of_enDayTok hdtk
      obtain ⟨k1, kru, k3, k4, k5, k6, k7, k8, k9⟩ := digitHead_key_facts b hdh
      have hcas := cascade_two_words_to_absolute ref t a b hws k1
        ⟨k3, k4, k5, k6, k7, k8, k9⟩
      have hnum := numeric_none_of_two_words (normText t) (by rw [hws]; simp)
      have hruN : ruTextMatch [a, b] = none := by
        unfold ruTextMatch
        dsimp only
        rw [kru]
      have hen' : enTextMatch [a, b] = some (d, m, none) := by rw [← hws]; exact hmen
      have habs : parseAbsolute ref (normText t) [a, b] =
          (mkDatetime (yearlessPick ref m d) m d).map
            (fun dt => { date := some dt, is_period := false }) := by
        unfold parseAbsolute
        rw [hnum.1]
        dsimp only
        rw [hnum.2.1]
        dsimp only
        rw [hnum.2.2]
        dsimp only
        rw [hruN]
        dsimp only
        rw [hen']
      rw [hcas, habs, hyp]
      rcases hmk : mkDatetime
          (if dtLtRef dt0 ref then ref.date.year + 1 else ref.date.year) m d with _ | dt <;>
        rfl
  refine ⟨?_, ?_, ?_⟩
  · intro dt hdt
    rw [hmain, hdt]
  · intro hnone
    rw [hmain, hnone]
  · rw [hdt0]
    unfold dtLtRef
    simp only [year_mk, month_mk, day_mk, Bool.or_eq_true, Bool.and_eq_true,
      decide_eq_true_eq, beq_iff_eq, lt_irrefl, false_or, eq_self_iff_true, true_and]
    omega

/-- C3 counterexample: with reference instant 2026-06-01 12:00, the
expression "1 июня" (June 1, the reference calendar day itself) resolves
to 2027-06-01 — the equal-calendar-day date does *not* stay in the
reference year, because the comparison uses the full reference instant
including its time-of-day. -/
theorem same_day_bumps_year_when_tod_positive :
    dateParse ⟨⟨2026, 6, 1⟩, 43200⟩ "1 июня" =
      .ok { date := some ⟨2027, 6, 1⟩, is_period := false, original_text := "1 июня" } := rfl

/-- C3 witness: "1 января" with reference 2026-06-01 (midnight) resolves
to 2027-01-01. -/
theorem yearless_textual_year_inference_witness :
    dateParse ⟨⟨2026, 6, 1⟩, 0⟩ "1 января" =
      .ok { date := some ⟨2027, 1, 1⟩, is_period := false, original_text := "1 января" } :=
  (yearless_textual_year_inference ⟨⟨2026, 6, 1⟩, 0⟩ "1 января" 1 1 ⟨2026, 1, 1⟩
    (by decide) (.inl rfl) rfl).1 ⟨2027, 1, 1⟩ rfl

theorem weekdayOf_lt (d : Date) : weekdayOf d < 7 := Nat.mod_lt _ (by norm_num)

theorem aheadDays_false_eq (w wd : Nat) :
    aheadDays false w wd =
      (if (w + 7 - wd) % 7 = 0 then 7 else (w + 7 - wd) % 7) := rfl

theorem aheadDays_true_eq (w wd : Nat) :
    aheadDays true w wd =
      (if (w + 7 - wd) % 7 = 0 then 7 else (w + 7 - wd) % 7 + 7) := rfl

/-- Arithmetic of the `days_ahead` computation in `_parse_weekday`. -/
theorem aheadDays_facts (w wd : Nat) (hw : w < 7) (hwd : wd < 7) :
    1 ≤ aheadDays false w wd ∧ aheadDays false w wd ≤ 7 ∧
    (wd + aheadDays false w wd) % 7 = w ∧
    (wd = w → aheadDays true w wd = aheadDays false w wd) ∧
    (wd ≠ w → aheadDays true w wd = aheadDays false w wd + 7) := by
  rw [aheadDays_false_eq, aheadDays_true_eq]
  split_ifs with h0
  · have heq : wd = w := by omega
    exact ⟨by omega, by omega, by omega, fun _ => rfl, fun hne => absurd heq hne⟩
  · have hne : wd ≠ w := by omega
    exact ⟨by omega, by omega, by omega, fun hyp => absurd hyp hne, fun _ => rfl⟩

/-- When the input survives the simple-relative stage and matches the
weekday pattern, `parse` returns the reference date advanced by
`days_ahead`. -/
theorem dateParse_weekday_eq (ref : DateTime) (t : String) (b : Bool) (w : Nat)
    (h0 : lookupStr simpleRelTable (normText t) = none)
    (h1 : weekdayMatch (wordsOf (normText t)) = some (b, w)) :
    dateParse ref t =
      .ok { date := some (addDays ref.date (aheadDays b w (weekdayOf ref.date))),
            is_period := false, original_text := t } := by
  have hs : parseSimpleRelative ref (normText t) = none := by
    unfold parseSimpleRelative
    rw [h0]
    rfl
  have hw : parseWeekday ref (wordsOf (normText t)) =
      some { date := some (addDays ref.date (aheadDays b w (weekdayOf ref.date))),
             is_period := false } := by
    unfold parseWeekday
    rw [h1]
    rfl
  unfold dateParse
  simp only [hs, hw]

set_option maxHeartbeats 4000000 in
set_option maxRecDepth 100000 in
/-- C2 (amended): for every weekday name in the grammar, the bare form
resolves to a date with that weekday lying strictly in (ref, ref+7 days];
the "next" form resolves exactly 7 days past the bare form *except* when
the reference date already falls on the named weekday, in which case the
"next" form coincides with the bare form (both give ref + 7 days). -/
theorem weekday_resolution (ref : DateTime) (name : String) (w : Nat)
    (hv : ValidDate ref.date) (hmem : (name, w) ∈ weekdaysTable) :
    ∃ k, 1 ≤ k ∧ k ≤ 7 ∧
      dateParse ref name =
        .ok { date := some (addDays ref.date k), is_period := false,
              original_text := name } ∧
      weekdayOf (addDays ref.date k) = w ∧
      dateParse ref ("next " ++ name) =
        .ok { date := some (addDays ref.date (if weekdayOf ref.date = w then k else k + 7)),
              is_period := false, original_text := "next " ++ name } := by
  have hw7 : w < 7 := by
    have hall : weekdaysTable.all (fun kv => decide (kv.2 < 7)) = true := by decide
    exact of_decide_eq_true (List.all_eq_true.mp hall _ hmem)
  have hwd7 := weekdayOf_lt ref.date
  obtain ⟨f1, f2, f3, f4, f5⟩ := aheadDays_facts w (weekdayOf ref.date) hw7 hwd7
  have h0bare : lookupStr simpleRelTable (normText name) = none := by
    have hall : weekdaysTable.all
        (fun kv => (lookupStr simpleRelTable (normText kv.1)).isNone) = true := by decide
    exact Option.isNone_iff_eq_none.mp (List.all_eq_true.mp hall _ hmem)
  have h1bare : weekdayMatch (wordsOf (normText name)) = some (false, w) := by
    have hall : weekdaysTable.all
        (fun kv => weekdayMatch (wordsOf (normText kv.1)) == some (false, kv.2)) = true := by
      decide
    exact eq_of_beq (List.all_eq_true.mp hall _ hmem)
  have h0next : lookupStr simpleRelTable (normText ("next " ++ name)) = none := by
    have hall : weekdaysTable.all
        (fun kv => (lookupStr simpleRelTable (normText ("next " ++ kv.1))).isNone)
        = true := by decide
    exact Option.isNone_iff_eq_none.mp (List.all_eq_true.mp hall _ hmem)
  have h1next : weekdayMatch (wordsOf (normText ("next " ++ name))) = some (true, w) := by
    have hall : weekdaysTable.all
        (fun kv => weekdayMatch (wordsOf (normText ("next " ++ kv.1)))
          == some (true, kv.2)) = true := by decide
    exact eq_of_beq (List.all_eq_true.mp hall _ hmem)
  refine ⟨aheadDays false w (weekdayOf ref.date), f1, f2, ?_, ?_, ?_⟩
  · exact dateParse_weekday_eq ref name false w h0bare h1bare
  · rw [weekdayOf_addDays hv]
    exact f3
  · rw [dateParse_weekday_eq ref ("next " ++ name) true w h0next h1next]
    by_cases hcase : weekdayOf ref.date = w
    · rw [if_pos hcase, f4 hcase]
    · rw [if_neg hcase, f5 hcase]

/-- C2 counterexample: with the reference on Monday 2026-02-02, both
"monday" and "next monday" resolve to 2026-02-09 — the "next" form is
*not* 7 days later than the bare form when the reference day already
falls on the named weekday (7 days later would be 2026-02-16). -/
theorem next_weekday_equals_bare_on_same_day :
    dateParse refMonday "monday" =
      .ok { date := some ⟨2026, 2, 9⟩, is_period := false, original_text := "monday" } ∧
    dateParse refMonday "next monday" =
      .ok { date := some ⟨2026, 2, 9⟩, is_period := false,
            original_text := "next monday" } ∧
    (⟨2026, 2, 9⟩ : Date) ≠ addDays ⟨2026, 2, 9⟩ 7 :=
  ⟨rfl, rfl, by decide⟩

/-- C2 witness: "friday" and "next friday" from Monday 2026-02-02. -/
theorem weekday_resolution_witness :
    ∃ k, 1 ≤ k ∧ k ≤ 7 ∧
      dateParse refMonday "friday" =
        .ok { date := some (addDays refMonday.date k), is_period := false,
              original_text := "friday" } ∧
      weekdayOf (addDays refMonday.date k) = 4 ∧
      dateParse refMonday ("next " ++ "friday") =
        .ok { date := some (addDays refMonday.date (if weekdayOf refMonday.date = 4 then k else k + 7)),
              is_period := false, original_text := "next " ++ "friday" } :=
  weekday_resolution refMonday "friday" 4 (by decide) (by decide)

/-- C1 counterexample: a phrase that *matches a recognizer syntactically*
but denotes an impossible calendar day ("february 30") produces exactly
the same kind of failure as a phrase no recognizer matches ("soon") —
there is no separate `InvalidCalendarDate` outcome. -/
theorem invalid_calendar_not_distinguishable :
    enTextMatch (wordsOf (normText "february 30")) = some (30, 2, none) ∧
    dateParse refMonday "february 30" = .error (.unrecognized "february 30") ∧
    dateParse refMonday "soon" = .error (.unrecognized "soon") :=
  ⟨rfl, rfl, rfl⟩

/-- C1 (amended): `parse` is total and never coerces malformed input into
a date: every input either yields a parse result or the *single* typed
failure (`ValueError`, modelled as `unrecognized`) carrying the
lower-cased stripped text — invalid calendar values surface as that same
failure, not as a distinct kind. -/
theorem parse_single_failure_kind (ref : DateTime) (text : String) :
    (∃ p, dateParse ref text = .ok p) ∨
      dateParse ref text = .error (.unrecognized (normText text)) := by
  unfold dateParse
  rcases h1 : parseSimpleRelative ref (normText text) with _ | r1
  case some => exact .inl ⟨{ r1 with original_text := text }, by simp only [h1]⟩
  simp only [h1]
  rcases h2 : parseWeekday ref (wordsOf (normText text)) with _ | r2
  case some => exact .inl ⟨{ r2 with original_text := text }, by simp only [h2]⟩
  simp only [h2]
  rcases h3 : parseWeekPeriod ref (wordsOf (normText text)) with _ | r3
  case some => exact .inl ⟨{ r3 with original_text := text }, by simp only [h3]⟩
  simp only [h3]
  rcases h4 : parseMonthPeriod ref (wordsOf (normText text)) with _ | r4
  case some => exact .inl ⟨{ r4 with original_text := text }, by simp only [h4]⟩
  simp only [h4]
  rcases h5 : parseOffset ref (wordsOf (normText text)) with _ | r5
  case some => exact .inl ⟨{ r5 with original_text := text }, by simp only [h5]⟩
  simp only [h5]
  rcases h6 : parseAbsolute ref (normText text) (wordsOf (normText text)) with _ | r6
  case some => exact .inl ⟨{ r6 with original_text := text }, by simp only [h6]⟩
  simp only [h6]
  exact .inr trivial

theorem insertDesc_perm (x : Airport × ℚ) (l : List (Airport × ℚ)) :
    List.Perm (AirportRegistry.insertDesc x l) (x :: l) := by
  induction l with
  | nil => exact .refl _
  | cons y ys ih =>
    unfold AirportRegistry.insertDesc
    by_cases h : y.2 ≤ x.2
    · rw [if_pos h]
    · rw [if_neg h]
      exact (ih.cons y).trans (List.Perm.swap x y ys)

theorem sortDesc_perm (l : List (Airport × ℚ)) :
    List.Perm (AirportRegistry.sortDesc l) l := by
  induction l with
  | nil => exact .refl _
  | cons x xs ih => exact (insertDesc_perm x (AirportRegistry.sortDesc xs)).trans (ih.cons x)

theorem mem_sortDesc {p : Airport × ℚ} {l : List (Airport × ℚ)} :
    p ∈ AirportRegistry.sortDesc l ↔ p ∈ l :=
  (sortDesc_perm l).mem_iff

theorem insertDesc_head (x : Airport × ℚ) (l : List (Airport × ℚ)) :
    (AirportRegistry.insertDesc x l).head? = some x ∨
      (AirportRegistry.insertDesc x l).head? = l.head? := by
  cases l with
  | nil => exact .inl rfl
  | cons y ys =>
    unfold AirportRegistry.insertDesc
    by_cases h : y.2 ≤ x.2
    · rw [if_pos h]; exact .inl rfl
    · rw [if_neg h]; exact .inr rfl

theorem chain_insertDesc (x : Airport × ℚ) (l : List (Airport × ℚ))
    (hc : List.Chain' (fun p q : Airport × ℚ => q.2 ≤ p.2) l) :
    List.Chain' (fun p q : Airport × ℚ => q.2 ≤ p.2) (AirportRegistry.insertDesc x l) := by
  induction l with
  | nil => simp [AirportRegistry.insertDesc]
  | cons y ys ih =>
    unfold AirportRegistry.insertDesc
    by_cases h : y.2 ≤ x.2
    · rw [if_pos h]
      exact List.chain'_cons.mpr ⟨h, hc⟩
    · rw [if_neg h]
      rw [List.chain'_cons'] at hc ⊢
      obtain ⟨hy, hys⟩ := hc
      refine ⟨?_, ih hys⟩
      intro b hb
      rcases insertDesc_head x ys with hh | hh
      · rw [hh] at hb
        have hbx : b = x := by
          have : some x = some b := hb
          exact (Option.some.inj this).symm
        rw [hbx]
        exact le_of_not_le h
      · rw [hh] at hb
        exact hy b hb

theorem chain_sortDesc (l : List (Airport × ℚ)) :
    List.Chain' (fun p q : Airport × ℚ => q.2 ≤ p.2) (AirportRegistry.sortDesc l) := by
  induction l with
  | nil => exact List.chain'_nil
  | cons x xs ih => exact chain_insertDesc x (AirportRegistry.sortDesc xs) ih

/-- Python's stable `sort(reverse=True)` leaves a constant-score list
unchanged (stage 3 scores everything 1.0). -/
theorem sortDesc_const_one (l : List (Airport × ℚ)) (h : ∀ p ∈ l, p.2 = (1 : ℚ)) :
    AirportRegistry.sortDesc l = l := by
  induction l with
  | nil => rfl
  | cons x xs ih =>
    have hx : AirportRegistry.sortDesc (x :: xs) =
        AirportRegistry.insertDesc x (AirportRegistry.sortDesc xs) := rfl
    rw [hx, ih (fun p hp => h p (List.mem_cons_of_mem _ hp))]
    cases xs with
    | nil => rfl
    | cons y ys =>
      unfold AirportRegistry.insertDesc
      have h1 : y.2 ≤ x.2 := by
        rw [h y (by simp), h x (by simp)]
      rw [if_pos h1]

theorem take_map_pair_one (l : List Airport) (n : Nat) :
    ((l.map (fun a => (a, (1 : ℚ)))).take n).map Prod.fst = l.take n := by
  induction l generalizing n with
  | nil => simp
  | cons x xs ih =>
    cases n with
    | zero => rfl
    | succ m => simp [ih]

/-- Pushing a score-descending chain through `Prod.fst` when every pair
carries its own similarity score. -/
theorem chain_map_fst_score (ratio : String → String → ℚ) (query : String)
    (L : List (Airport × ℚ))
    (hinv : ∀ p ∈ L, p.2 = p.1.similarity_score ratio query)
    (hc : List.Chain' (fun p q : Airport × ℚ => q.2 ≤ p.2) L) :
    List.Chain' (fun a b : Airport =>
      b.similarity_score ratio query ≤ a.similarity_score ratio query)
      (L.map Prod.fst) := by
  induction L with
  | nil => exact List.chain'_nil
  | cons p L' ih =>
    rw [List.map_cons]
    rw [List.chain'_cons'] at hc ⊢
    obtain ⟨hhd, htl⟩ := hc
    refine ⟨?_, ih (fun q hq => hinv q (List.mem_cons_of_mem _ hq)) htl⟩
    intro b hb
    cases L' with
    | nil => simp at hb
    | cons q L'' =>
      rw [List.map_cons] at hb
      have hbq : b = q.1 := by
        have : some q.1 = some b := hb
        exact (Option.some.inj this).symm
      rw [hbq, ← hinv p (by simp), ← hinv q (by simp)]
      exact hhd q rfl

/-- Stage-4 survivor list: filtering the scored pairs is the pairing of
the filtered record list. -/
theorem survivors_eq (ratio : String → String → ℚ) (query : String) (l : List Airport) :
    (l.map (fun a => (a, a.similarity_score ratio query))).filter
        (fun p => (6/10 : ℚ) ≤ p.2) =
      (l.filter (fun a => (6/10 : ℚ) ≤ a.similarity_score ratio query)).map
        (fun a => (a, a.similarity_score ratio query)) := by
  induction l with
  | nil => rfl
  | cons x xs ih =>
    by_cases h : (6/10 : ℚ) ≤ x.similarity_score ratio query
    · simp [List.filter_cons, h, ih]
    · simp [List.filter_cons, h, ih]

/-- C4: staged lookup priority of `find_airports`.  Stage 1: the exact
settlement-index hits (truncated to `limit`) whenever any exist.  Stage 2:
otherwise the single exact title-index hit if present.  Stage 3: otherwise,
whenever any record matches exactly, the records with an exact alias match
in catalog order (truncated to `limit`; settlement and title matches are
impossible here, so `matches()` degenerates to alias equality).  Stage 4:
only when all three exact stages are empty, fuzzy scoring: every returned
record is a catalog record scoring at least the fixed threshold 0.6,
at most `limit` records are returned, they are ordered by descending
similarity score, and no record at or above the threshold is dropped when
the survivors fit within `limit`. -/
theorem find_airports_staged (ratio : String → String → ℚ) (r : AirportRegistry)
    (query : String) (limit : Nat) (hl : r.loaded = true) :
    (r.bySettlement (normText query) ≠ [] →
      r.find_airports ratio query limit = (r.bySettlement (normText query)).take limit) ∧
    (r.bySettlement (normText query) = [] →
      ∀ a, r.byTitle (normText query) = some a →
        r.find_airports ratio query limit = [a]) ∧
    (r.bySettlement (normText query) = [] → r.byTitle (normText query) = none →
      r.airports.filter (fun a => a.matchesQuery query) ≠ [] →
      r.find_airports ratio query limit =
        (r.airports.filter
          (fun a => a.aliases.any (fun al => normText query = pyLower al))).take limit) ∧
    (r.bySettlement (normText query) = [] → r.byTitle (normText query) = none →
      r.airports.filter (fun a => a.matchesQuery query) = [] →
      (∀ a ∈ r.find_airports ratio query limit,
        a ∈ r.airports ∧ (6/10 : ℚ) ≤ a.similarity_score ratio query) ∧
      (r.find_airports ratio query limit).length ≤ limit ∧
      List.Chain' (fun a b : Airport =>
        b.similarity_score ratio query ≤ a.similarity_score ratio query)
        (r.find_airports ratio query limit) ∧
      ((r.airports.filter
          (fun a => (6/10 : ℚ) ≤ a.similarity_score ratio query)).length ≤ limit →
        ∀ a ∈ r.airports, (6/10 : ℚ) ≤ a.similarity_score ratio query →
          a ∈ r.find_airports ratio query limit)) := by
  refine ⟨?_, ?_, ?_, ?_⟩
  · intro h1
    unfold AirportRegistry.find_airports
    rw [if_pos hl]
    dsimp only
    rw [if_pos h1]
  · intro h1 a ha
    unfold AirportRegistry.find_airports
    rw [if_pos hl]
    dsimp only
    rw [if_neg (not_not_intro h1), ha]
  · intro h1 h2 h3
    unfold AirportRegistry.find_airports
    rw [if_pos hl]
    dsimp only
    rw [if_neg (not_not_intro h1), h2]
    dsimp only
    have hms : (r.airports.filter (fun a => a.matchesQuery query)).map
        (fun a => (a, (1 : ℚ))) ≠ [] := by
      intro hc
      exact h3 (List.map_eq_nil_iff.mp hc)
    rw [if_pos hms]
    have hconst : ∀ p ∈ (r.airports.filter (fun a => a.matchesQuery query)).map
        (fun a => (a, (1 : ℚ))), p.2 = (1 : ℚ) := by
      intro p hp
      obtain ⟨a, _, rfl⟩ := List.mem_map.mp hp
      rfl
    rw [sortDesc_const_one _ hconst]
    have hsl : ∀ a ∈ r.airports, ¬(pyLower a.settlement = normText query) := by
      intro a ha hc
      exact (List.filter_eq_nil_iff.mp h1 a ha) (decide_eq_true hc)
    have htl : ∀ a ∈ r.airports, ¬(pyLower a.title = normText query) := by
      intro a ha hc
      have h2' : r.airports.filter (fun a => pyLower a.title = normText query) = [] :=
        List.head?_eq_none_iff.mp h2
      exact (List.filter_eq_nil_iff.mp h2' a ha) (decide_eq_true hc)
    have hfe : r.airports.filter (fun a => a.matchesQuery query) =
        r.airports.filter
          (fun a => a.aliases.any (fun al => normText query = pyLower al)) := by
      apply List.filter_congr
      intro a ha
      unfold Airport.matchesQuery
      dsimp only
      rw [decide_eq_false (fun hc => hsl a ha hc.symm),
        decide_eq_false (fun hc => htl a ha hc.symm), Bool.false_or, Bool.false_or]
    rw [hfe, take_map_pair_one]
  · intro h1 h2 h3
    have hbranch : r.find_airports ratio query limit =
        ((AirportRegistry.sortDesc
            ((r.airports.map (fun a => (a, a.similarity_score ratio query))).filter
              (fun p => (6/10 : ℚ) ≤ p.2))).take limit).map Prod.fst := by
      unfold AirportRegistry.find_airports
      rw [if_pos hl]
      dsimp only
      rw [if_neg (not_not_intro h1), h2]
      dsimp only
      have hms : ¬((r.airports.filter (fun a => a.matchesQuery query)).map
          (fun a => (a, (1 : ℚ))) ≠ []) := by
        rw [h3]
        exact not_not_intro rfl
      rw [if_neg hms]
    rw [hbranch]
    have hmem : ∀ p ∈ (AirportRegistry.sortDesc
        ((r.airports.map (fun a => (a, a.similarity_score ratio query))).filter
          (fun p => (6/10 : ℚ) ≤ p.2))).take limit,
        p.1 ∈ r.airports ∧ p.2 = p.1.similarity_score ratio query ∧
          (6/10 : ℚ) ≤ p.2 := by
      intro p hp
      have hp1 : p ∈ AirportRegistry.sortDesc
          ((r.airports.map (fun a => (a, a.similarity_score ratio query))).filter
            (fun p => (6/10 : ℚ) ≤ p.2)) := List.take_subset _ _ hp
      have hp2 := mem_sortDesc.mp hp1
      obtain ⟨hp3, hp4⟩ := List.mem_filter.mp hp2
      obtain ⟨a, hamem, rfl⟩ := List.mem_map.mp hp3
      exact ⟨hamem, rfl, of_decide_eq_true hp4⟩
    refine ⟨?_, ?_, ?_, ?_⟩
    · intro a ha
      obtain ⟨p, hp, rfl⟩ := List.mem_map.mp ha
      obtain ⟨hm1, hm2, hm3⟩ := hmem p hp
      exact ⟨hm1, hm2 ▸ hm3⟩
    · rw [List.length_map, List.length_take]
      exact min_le_left _ _
    · exact chain_map_fst_score ratio query _ (fun p hp => (hmem p hp).2.1)
        ((chain_sortDesc _).take limit)
    · intro hlen a ha hsc
      have hsurv := survivors_eq ratio query r.airports
      have hlen2 : ((r.airports.map
          (fun a => (a, a.similarity_score ratio query))).filter
            (fun p => (6/10 : ℚ) ≤ p.2)).length ≤ limit := by
        rw [hsurv, List.length_map]
        exact hlen
      have hlen3 : (AirportRegistry.sortDesc
          ((r.airports.map (fun a => (a, a.similarity_score ratio query))).filter
            (fun p => (6/10 : ℚ) ≤ p.2))).length ≤ limit := by
        rw [(sortDesc_perm _).length_eq]
        exact hlen2
      rw [List.take_of_length_le hlen3]
      refine List.mem_map.mpr ⟨(a, a.similarity_score ratio query), ?_, rfl⟩
      refine mem_sortDesc.mpr (List.mem_filter.mpr ⟨?_, ?_⟩)
      · exact List.mem_map.mpr ⟨a, ha, rfl⟩
      · exact decide_eq_true hsc

/-- A registry record used to instantiate C4 concretely. -/
def airportW : Airport :=
  ⟨"SVO", "sheremetyevo", "moscow", "moscow region", "russia", 0, 0, ["мск"]⟩

/-- A loaded one-record registry used to instantiate C4 concretely. -/
def regW : AirportRegistry := ⟨[airportW], true⟩

/-- A degenerate similarity oracle used to instantiate C4 concretely. -/
def ratioZero : String → String → ℚ := fun _ _ => 0

/-- C4 witness: the staged-lookup theorem instantiated on a concrete
loaded registry. -/
theorem find_airports_staged_witness :
    (regW.bySettlement (normText "moscow") ≠ [] →
      regW.find_airports ratioZero "moscow" 5 =
        (regW.bySettlement (normText "moscow")).take 5) ∧
    (regW.bySettlement (normText "moscow") = [] →
      ∀ a, regW.byTitle (normText "moscow") = some a →
        regW.find_airports ratioZero "moscow" 5 = [a]) ∧
    (regW.bySettlement (normText "moscow") = [] → regW.byTitle (normText "moscow") = none →
      regW.airports.filter (fun a => a.matchesQuery "moscow") ≠ [] →
      regW.find_airports ratioZero "moscow" 5 =
        (regW.airports.filter
          (fun a => a.aliases.any (fun al => normText "moscow" = pyLower al))).take 5) ∧
    (regW.bySettlement (normText "moscow") = [] → regW.byTitle (normText "moscow") = none →
      regW.airports.filter (fun a => a.matchesQuery "moscow") = [] →
      (∀ a ∈ regW.find_airports ratioZero "moscow" 5,
        a ∈ regW.airports ∧ (6/10 : ℚ) ≤ a.similarity_score ratioZero "moscow") ∧
      (regW.find_airports ratioZero "moscow" 5).length ≤ 5 ∧
      List.Chain' (fun a b : Airport =>
        b.similarity_score ratioZero "moscow" ≤ a.similarity_score ratioZero "moscow")
        (regW.find_airports ratioZero "moscow" 5) ∧
      ((regW.airports.filter
          (fun a => (6/10 : ℚ) ≤ a.similarity_score ratioZero "moscow")).length ≤ 5 →
        ∀ a ∈ regW.airports, (6/10 : ℚ) ≤ a.similarity_score ratioZero "moscow" →
          a ∈ regW.find_airports ratioZero "moscow" 5)) :=
  find_airports_staged ratioZero regW "moscow" 5 rfl

end AudioRouter
